import Mathlib

/-!
Verification of the comsect1 architecture-gate scripts.

This file gives a shallow embedding of the two architecture verifiers of the
repository — `src/scripts/Verify-Comsect1Code.py` (the C-family binding) and
`src/scripts/Verify-OOPCode.py` (the OOP binding) — and proves or refutes the
frozen claims about them.

Modelling conventions, used consistently below:
* A file path is a `String`, assumed absolute and normalised the way
  `os.path.abspath` leaves it on a POSIX host: `/`-separated, no repeated or
  trailing separators.  `full_path` on such a path is the identity, so it is
  not modelled separately.
* A file's text is modelled as its list of lines (the result of iterating the
  open file or of `splitlines()`), without trailing newline characters.
* Reading a file can fail; this is modelled by a `readable` flag on each file.
* Python `str` operations are modelled on `List Char`; case folding and the
  regex classes `\s`/`\w` are modelled on their ASCII parts (the scripts only
  ever match ASCII keywords, prefixes and separators).
* Filename stems are assumed not to contain newline characters, so the regex
  `(.+)$` is modelled as "any nonempty remainder".
* The human-readable `Message` field of a finding is presentation-only — no
  rule logic, deduplication key, sort key or exit code depends on it — and is
  not modelled.
-/

/-- Python strings are modelled as their lists of characters. -/
abbrev Str := List Char

/-- The character list of a string literal. -/
def chars (s : String) : Str := s.data

/-- ASCII lower-casing of one character (models `str.lower` on the ASCII
range, which is all the scripts ever compare). -/
def lowerC (c : Char) : Char :=
  if 65 ≤ c.toNat ∧ c.toNat ≤ 90 then Char.ofNat (c.toNat + 32) else c

/-- Models Python `str.lower()`. -/
def lowerL (s : Str) : Str := s.map lowerC

/-- `startsWithL p s` models Python `s.startswith(p)` (equivalently a match of
the anchored regex `^p` for a literal pattern `p`). -/
def startsWithL : Str → Str → Bool
  | [], _ => true
  | _ :: _, [] => false
  | c :: p, d :: s => c == d && startsWithL p s

/-- `dropLit p s` consumes the literal `p` from the front of `s`, returning the
remainder; models a regex literal match plus capture of the rest. -/
def dropLit : Str → Str → Option Str
  | [], s => some s
  | _ :: _, [] => none
  | c :: p, d :: s => if c == d then dropLit p s else none

/-- `isInfixL n h` models Python `n in h` for strings (contiguous substring). -/
def isInfixL (needle : Str) : Str → Bool
  | [] => startsWithL needle []
  | d :: t => startsWithL needle (d :: t) || isInfixL needle t

/-- The Python regex class `\s` (ASCII part). -/
def isSpaceC (c : Char) : Bool :=
  c == ' ' || c == '\t' || c == '\n' || c == '\x0d' || c == '\x0b' || c == '\x0c'

/-- The Python regex class `\w` (ASCII part: letters, digits, underscore). -/
def isWordC (c : Char) : Bool :=
  ('a' ≤ c && c ≤ 'z') || ('A' ≤ c && c ≤ 'Z') || ('0' ≤ c && c ≤ '9') || c == '_'

/-- Models Python `str.strip()`: whitespace removed from both ends. -/
def stripL (s : Str) : Str :=
  ((s.dropWhile isSpaceC).reverse.dropWhile isSpaceC).reverse

/-- The final path component, as in `os.path.basename` / `pathlib.Path.name`
for a normalised path with no trailing separator. -/
def baseNameL (p : Str) : Str :=
  (p.reverse.takeWhile (fun c => c != '/')).reverse

/-- Index of the last `.` in a name, if any (Python `name.rfind('.')`). -/
def lastDotIdx (n : Str) : Option Nat :=
  (n.reverse.findIdx? (fun c => c == '.')).map (fun j => n.length - 1 - j)

/-- `pathlib.Path.stem` of a single name: the name minus its suffix, where a
suffix starts at the last dot provided that dot is neither the first nor the
last character. -/
def stemL (n : Str) : Str :=
  match lastDotIdx n with
  | some i => if 0 < i ∧ i < n.length - 1 then n.take i else n
  | none => n

/-- `pathlib.Path.suffix` of a single name (includes the dot). -/
def suffixL (n : Str) : Str :=
  match lastDotIdx n with
  | some i => if 0 < i ∧ i < n.length - 1 then n.drop i else []
  | none => []

/-- Pairs each element with its 1-based position (Python `enumerate(_, 1)`). -/
def numbered : Nat → List α → List (Nat × α)
  | _, [] => []
  | i, a :: l => (i, a) :: numbered (i + 1) l

/-!
## Role classifier (`get_role_info`, Verify-Comsect1Code.py lines 42-78)
-/

/-- Models the regex `^(ida|prx|poi|cfg|db)_(.+)$` of `get_role_info` combined
with the `role_map` lookup.  The five alternatives are mutually exclusive on
their first character, so a prefix whose `(.+)` remainder is empty cannot be
rescued by a later alternative; the match simply fails. -/
def twoSegMatch (s : Str) : Option (String × Str) :=
  match dropLit (chars "ida_") s with
  | some r => if r.isEmpty then none else some ("idea", r)
  | none =>
    match dropLit (chars "prx_") s with
    | some r => if r.isEmpty then none else some ("praxis", r)
    | none =>
      match dropLit (chars "poi_") s with
      | some r => if r.isEmpty then none else some ("poiesis", r)
      | none =>
        match dropLit (chars "cfg_") s with
        | some r => if r.isEmpty then none else some ("feature_cfg", r)
        | none =>
          match dropLit (chars "db_") s with
          | some r => if r.isEmpty then none else some ("feature_db", r)
          | none => none

/-- The body of `get_role_info` acting on an already-computed stem:
reserved prefix, exact core names, the two-segment feature pattern, the five
single-segment infrastructure prefixes, else unknown. -/
def classifyStem (s : Str) : String × Option Str :=
  if startsWithL (chars "inf_") s then ("invalid_prefix", none)
  else if s == chars "ida_core" then ("core_idea", some (chars "core"))
  else if s == chars "poi_core" then ("core_poiesis", some (chars "core"))
  else if s == chars "prx_core" then ("core_praxis", some (chars "core"))
  else
    match twoSegMatch s with
    | some rf => (rf.1, some rf.2)
    | none =>
      if startsWithL (chars "svc_") s then ("service", none)
      else if startsWithL (chars "mdw_") s then ("middleware", none)
      else if startsWithL (chars "hal_") s then ("hal", none)
      else if startsWithL (chars "bsp_") s then ("bsp", none)
      else if startsWithL (chars "stm_") s then ("datastream", none)
      else ("unknown", none)

/-- Models `get_role_info(file_name)`: the stem of the final component of the
argument is classified. -/
def getRoleInfo (fileName : Str) : String × Option Str :=
  classifyStem (stemL (baseNameL fileName))

/-- The three exact core names of `core_map`, written as the spec lists them. -/
def specCoreNames : List (String × String) :=
  [("ida_core", "core_idea"), ("poi_core", "core_poiesis"), ("prx_core", "core_praxis")]

/-- The feature-role tags of the spec's clause (c), with their roles. -/
def specFeatureTags : List (String × String) :=
  [("ida_", "idea"), ("prx_", "praxis"), ("poi_", "poiesis"),
   ("cfg_", "feature_cfg"), ("db_", "feature_db")]

/-- The five non-feature infrastructure tags of the spec's clause (d). -/
def specInfraTags : List (String × String) :=
  [("svc_", "service"), ("mdw_", "middleware"), ("hal_", "hal"),
   ("bsp_", "bsp"), ("stm_", "datastream")]

/-- A classifier written to the spec's words (§4.1): matching order, first hit
wins — (a) the reserved prefix is rejected outright, (b) three exact full-name
matches map to the Core roles, (c) a two-segment `tag_rest` pattern with a
nonempty rest maps to the feature-scoped role with the rest as implied
feature, (d) five single-prefix tags map to infrastructure roles, (e) anything
else is unknown.  Stated over lists of table entries so that the fixed
precedence is explicit. -/
def classifySpec (s : Str) : String × Option Str :=
  if startsWithL (chars "inf_") s then ("invalid_prefix", none)
  else
    match specCoreNames.find? (fun p => s == chars p.1) with
    | some p => (p.2, some (chars "core"))
    | none =>
      match specFeatureTags.findSome?
          (fun p => (dropLit (chars p.1) s).bind
            (fun r => if r.isEmpty then none else some (p.2, r))) with
      | some rf => (rf.1, some rf.2)
      | none =>
        match specInfraTags.findSome?
            (fun p => if startsWithL (chars p.1) s then some p.2 else none) with
        | some role => (role, none)
        | none => ("unknown", none)

/-!
## Common finding model
-/

/-- One finding, as produced by `add_finding` in either binding.  The
human-readable message is presentation-only and not modelled. -/
structure Finding where
  severity : String
  file : String
  line : Nat
  rule : String
deriving DecidableEq

/-- One conditional `add_finding` call site: the singleton list when the guard
holds, nothing otherwise. -/
def condFinding (b : Bool) (f : Finding) : List Finding :=
  if b then [f] else []

/-- Wraps a character list back into a `String`. -/
def strOfL (s : Str) : String := String.mk s

/-!
## C-family binding: paths and the scanned tree
(`Verify-Comsect1Code.py`)
-/

/-- A source file of the scanned tree for the C-family binding. -/
structure CFile where
  path : String
  lines : List String
  readable : Bool
deriving DecidableEq

/-- The scanned tree: the resolved root path, the set of directories that
exist, and every file under the root (the recursive walk's result). -/
structure CTree where
  root : String
  dirs : List String
  files : List CFile
deriving DecidableEq

/-- Models `str.replace("/", "\\")`. -/
def replSlash (s : Str) : Str := s.map (fun c => if c == '/' then '\\' else c)

/-- A path-separator character as accepted by the scripts' regexes (`[\\/]`). -/
def isSepC (c : Char) : Bool := c == '\\' || c == '/'

/-- Models `test_is_under_path`: case-insensitive prefix test against the base
path with a trailing separator appended. -/
def underPath (p base : Str) : Bool :=
  let b := if base.getLast? == some '/' then base else base ++ ['/']
  startsWithL (lowerL b) (lowerL p)

/-- Models `test_contains_subpath`: both the path and the needle have `/`
replaced by `\`, then a case-insensitive substring test is made. -/
def containsSubpath (p : Str) (sub : Str) : Bool :=
  isInfixL (lowerL (replSlash sub)) (lowerL (replSlash p))

/-- The tail of the `get_feature_from_path` regex after a separator was seen:
`project`, a separator, `features`, a separator, then a nonempty captured run
of non-separator characters. -/
def featCapture (s : Str) : Option Str :=
  match dropLit (chars "project") s with
  | none => none
  | some s1 =>
    match s1 with
    | [] => none
    | c :: s2 =>
      if isSepC c then
        match dropLit (chars "features") s2 with
        | none => none
        | some s3 =>
          match s3 with
          | [] => none
          | d :: s4 =>
            if isSepC d then
              let cap := s4.takeWhile (fun e => !isSepC e)
              if cap.isEmpty then none else some cap
            else none
      else none

/-- Leftmost-match scan for `[\\/]project[\\/]features[\\/]([^\\/]+)`. -/
def featScan : Str → Option Str
  | [] => none
  | c :: rest =>
    if isSepC c then
      match featCapture rest with
      | some f => some f
      | none => featScan rest
    else featScan rest

/-- Models `get_feature_from_path`. -/
def getFeatureFromPath (p : Str) : Option Str := featScan (replSlash p)

/-- Matches `deps([\\/]|$)` at the current position. -/
def depsSegAt (s : Str) : Bool :=
  match dropLit (chars "deps") s with
  | some rest =>
    match rest with
    | [] => true
    | c :: _ => isSepC c
  | none => false

/-- Scan for a separator followed by a `deps` segment. -/
def hasDepsSegAux : Str → Bool
  | [] => false
  | c :: rest => (isSepC c && depsSegAt rest) || hasDepsSegAux rest

/-- Models `re.search(r"(^|[\\/])deps([\\/]|$)", include_path)`. -/
def hasDepsSeg (p : Str) : Bool := depsSegAt p || hasDepsSegAux p

/-- The parent directory of a normalised path (everything before the final
separator). -/
def dirOfL (p : Str) : Str :=
  ((p.reverse.dropWhile (fun c => c != '/')).drop 1).reverse

/-- Models `s.endswith(suf)`. -/
def endsWithL (suf s : Str) : Bool := startsWithL suf.reverse s.reverse

/-- The file name (final path component) of a `CFile`. -/
def cName (f : CFile) : Str := baseNameL f.path.data

def cBootstrapDir (t : CTree) : Str := t.root.data ++ chars "/infra/bootstrap"

def cServiceDir (t : CTree) : Str := t.root.data ++ chars "/infra/service"

def cHalDir (t : CTree) : Str := t.root.data ++ chars "/infra/platform/hal"

def cBspDir (t : CTree) : Str := t.root.data ++ chars "/infra/platform/bsp"

def cDepsDir (t : CTree) : Str := t.root.data ++ chars "/deps"

def cDepsExternDir (t : CTree) : Str := t.root.data ++ chars "/deps/extern"

def cDepsMwDir (t : CTree) : Str := t.root.data ++ chars "/deps/middleware"

def cFeaturesDir (t : CTree) : Str := t.root.data ++ chars "/project/features"

def cConfigDir (t : CTree) : Str := t.root.data ++ chars "/project/config"

def cStreamsDir (t : CTree) : Str := t.root.data ++ chars "/project/datastreams"

/-- Directory existence in the modelled tree (`Path.is_dir`). -/
def isDirIn (t : CTree) (p : Str) : Bool := t.dirs.any (fun d => d.data == p)

/-- File existence in the modelled tree (`Path.is_file`). -/
def isFileIn (t : CTree) (p : Str) : Bool := t.files.any (fun f => f.path.data == p)

/-- The `SOURCE_EXTENSIONS` set. -/
def cSourceExts : List Str := [chars ".c", chars ".h", chars ".cpp", chars ".hpp"]

/-- Extension filter of `collect_source_files`. -/
def cIsSource (f : CFile) : Bool :=
  cSourceExts.any (fun e => lowerL (suffixL (cName f)) == e)

/-- Models `collect_source_files(root_path)` on the modelled tree. -/
def cSourceFiles (t : CTree) : List CFile := t.files.filter cIsSource

/-- Suffix test for `.h`/`.hpp` headers. -/
def cIsHeader (f : CFile) : Bool :=
  lowerL (suffixL (cName f)) == chars ".h" || lowerL (suffixL (cName f)) == chars ".hpp"

/-- Models `project_config_names`: names of `*.h` files directly in
`/project/config`, collected only when that directory exists. -/
def cProjectConfigNames (t : CTree) : List Str :=
  if isDirIn t (cConfigDir t) then
    ((t.files.filter (fun f =>
        dirOfL f.path.data == cConfigDir t && endsWithL (chars ".h") (cName f))).map cName)
  else []

/-- Models `header_feature_owners` as the list of (header name, owning
feature) pairs; set-membership queries are existential over this list. -/
def cHeaderOwners (t : CTree) : List (Str × Str) :=
  (cSourceFiles t).filterMap (fun f =>
    if cIsHeader f then (getFeatureFromPath f.path.data).map (fun ft => (cName f, ft))
    else none)

/-- The candidate condition of the `project_resource_header_names` loop
(Verify-Comsect1Code.py lines 307-342). -/
def cIsResourceHeaderCandidate (t : CTree) (f : CFile) : Bool :=
  cIsHeader f &&
  (let role := (getRoleInfo (cName f)).1
   role == "feature_cfg" || role == "feature_db" || role == "datastream") &&
  (let p := f.path.data
   let nested := underPath p (cDepsExternDir t) || underPath p (cDepsMwDir t)
   let segFeat := containsSubpath p (chars "\\\\project\\\\features\\\\")
   let segCfg := containsSubpath p (chars "\\\\project\\\\config\\\\")
   let segStreams := containsSubpath p (chars "\\\\project\\\\datastreams\\\\")
   (underPath p (cFeaturesDir t) || (nested && segFeat))
   || (underPath p (cConfigDir t) || (nested && segCfg))
   || (underPath p (cStreamsDir t) || (nested && segStreams)))

/-- Models `project_resource_header_names`. -/
def cResourceHeaderNames (t : CTree) : List Str :=
  ((cSourceFiles t).filter (cIsResourceHeaderCandidate t)).map cName

/-- The read-only context used by the per-include rule engine. -/
structure CRuleCtx where
  projectConfigNames : List Str
  resourceHeaderNames : List Str
  headerOwners : List (Str × Str)
deriving DecidableEq

/-- Builds the rule context from the scanned tree. -/
def cRuleCtx (t : CTree) : CRuleCtx :=
  ⟨cProjectConfigNames t, cResourceHeaderNames t, cHeaderOwners t⟩

/-- Models `test_is_same_feature_header`. -/
def sameFeatureHeader (leaf : Str) (pre : String) (feature : Option Str) : Bool :=
  match feature with
  | none => false
  | some ft =>
    if ft.isEmpty then false
    else
      let stem := lowerL (stemL (baseNameL leaf))
      let base := lowerL (chars pre ++ '_' :: ft)
      stem == base || startsWithL (base ++ ['_']) stem

/-- Models `test_is_same_feature_include`. -/
def sameFeatureInclude (leaf : Str) (pre : String) (feature : Option Str)
    (owners : List (Str × Str)) : Bool :=
  match feature with
  | none => false
  | some ft =>
    if ft.isEmpty then false
    else if owners.any (fun o => o.1 == leaf) then
      owners.any (fun o => o.1 == leaf && o.2 == ft)
    else sameFeatureHeader leaf pre (some ft)

/-!
## C-family binding: include extraction and the dependency rule engine
-/

/-- One extracted include reference (`get_includes` entry). -/
structure CInclude where
  line : Nat
  path : Str
  leaf : Str
  raw : Str
deriving DecidableEq

/-- Models `INCLUDE_REGEX` on one line, returning a captured include path. -/
def parseIncludeLine (l : Str) : Option Str :=
  match l.dropWhile isSpaceC with
  | '#' :: s2 =>
    match dropLit (chars "include") (s2.dropWhile isSpaceC) with
    | none => none
    | some s4 =>
      match s4.dropWhile isSpaceC with
      | c :: s6 =>
        if c == '<' || c == '"' then
          let cap := s6.takeWhile (fun e => !(e == '"' || e == '>'))
          let rest := s6.dropWhile (fun e => !(e == '"' || e == '>'))
          if cap.isEmpty || rest.isEmpty then none else some cap
        else none
      | [] => none
  | _ => none

/-- Models `SYSTEM_INCLUDE_REGEX` on a raw line. -/
def sysIncludeRaw (raw : Str) : Bool :=
  match raw.dropWhile isSpaceC with
  | '#' :: s2 =>
    match dropLit (chars "include") (s2.dropWhile isSpaceC) with
    | some s4 => (s4.dropWhile isSpaceC).head? == some '<'
    | none => false
  | _ => false

/-- Models `get_includes`: fails when the file cannot be read, otherwise
extracts every line matching the include directive regex. -/
def cGetIncludes (f : CFile) : Except Unit (List CInclude) :=
  if f.readable then
    Except.ok ((numbered 1 f.lines).filterMap (fun nl =>
      (parseIncludeLine nl.2.data).map (fun ip =>
        { line := nl.1, path := ip, leaf := baseNameL ip, raw := nl.2.data })))
  else Except.error ()

/-- True when the leaf starts with any of the given literal tags. -/
def startsAny (ps : List String) (s : Str) : Bool :=
  ps.any (fun p => startsWithL (chars p) s)

/-- The roles of the core/project layers for the deps-path include rule. -/
def coreProjectRoles : List String :=
  ["core_idea", "core_poiesis", "core_praxis", "idea", "praxis", "poiesis"]

/-- The per-include dependency rule engine: the body of the include loop of
`main` (Verify-Comsect1Code.py lines 445-544) for a single extracted
reference. -/
def cIncludeFindings (ctx : CRuleCtx) (role : String) (feature : Option Str)
    (fp : String) (inc : CInclude) : List Finding :=
  if sysIncludeRaw inc.raw then [] else
  let leaf := inc.leaf
  let isCoreCfg := leaf == chars "cfg_core.h"
  let isProjectCfg := ctx.projectConfigNames.any (fun n => n == leaf)
  condFinding (coreProjectRoles.contains role && hasDepsSeg inc.path)
    ⟨"error", fp, inc.line, "include.deps_path"⟩
  ++ (if role == "core_idea" then
        condFinding (startsWithL (chars "prx_") leaf && leaf != chars "prx_core.h")
          ⟨"error", fp, inc.line, "ida_core.include"⟩
        ++ condFinding (startsWithL (chars "poi_") leaf && leaf != chars "poi_core.h")
          ⟨"error", fp, inc.line, "ida_core.include"⟩
        ++ condFinding (startsWithL (chars "cfg_") leaf && !isCoreCfg)
          ⟨"error", fp, inc.line, "ida_core.include"⟩
        ++ condFinding (startsAny ["db_", "stm_", "mdw_", "svc_", "hal_", "bsp_"] leaf)
          ⟨"error", fp, inc.line, "ida_core.include"⟩
      else if role == "idea" then
        condFinding (startsWithL (chars "prx_") leaf
            && !sameFeatureInclude leaf "prx" feature ctx.headerOwners)
          ⟨"error", fp, inc.line, "ida.include"⟩
        ++ condFinding (startsWithL (chars "poi_") leaf
            && !sameFeatureInclude leaf "poi" feature ctx.headerOwners)
          ⟨"error", fp, inc.line, "ida.include"⟩
        ++ condFinding (startsWithL (chars "ida_") leaf
            && !sameFeatureInclude leaf "ida" feature ctx.headerOwners)
          ⟨"error", fp, inc.line, "ida.include"⟩
        ++ condFinding (startsWithL (chars "cfg_") leaf && !isCoreCfg)
          ⟨"error", fp, inc.line, "ida.include"⟩
        ++ condFinding (startsAny ["db_", "stm_", "mdw_", "svc_", "hal_", "bsp_"] leaf)
          ⟨"error", fp, inc.line, "ida.include"⟩
      else if role == "core_poiesis" then
        condFinding (startsWithL (chars "ida_") leaf && leaf != chars "ida_core.h")
          ⟨"error", fp, inc.line, "poi_core.include"⟩
        ++ condFinding (startsAny ["prx_", "poi_"] leaf && leaf != chars "poi_core.h")
          ⟨"error", fp, inc.line, "poi_core.include"⟩
        ++ condFinding (startsAny ["hal_", "bsp_"] leaf)
          ⟨"error", fp, inc.line, "poi_core.include"⟩
        ++ condFinding (startsWithL (chars "cfg_") leaf && !isCoreCfg)
          ⟨"error", fp, inc.line, "poi_core.include"⟩
      else if role == "core_praxis" then
        condFinding (startsWithL (chars "ida_") leaf && leaf != chars "ida_core.h")
          ⟨"error", fp, inc.line, "prx_core.include"⟩
        ++ condFinding (startsAny ["prx_", "poi_"] leaf
            && !(leaf == chars "prx_core.h" || leaf == chars "poi_core.h"))
          ⟨"error", fp, inc.line, "prx_core.include"⟩
        ++ condFinding (startsAny ["hal_", "bsp_"] leaf)
          ⟨"error", fp, inc.line, "prx_core.include"⟩
        ++ condFinding (startsWithL (chars "cfg_") leaf && !isCoreCfg)
          ⟨"error", fp, inc.line, "prx_core.include"⟩
      else if role == "praxis" then
        condFinding (startsWithL (chars "ida_") leaf)
          ⟨"error", fp, inc.line, "prx.include"⟩
        ++ condFinding (startsWithL (chars "prx_") leaf
            && !sameFeatureInclude leaf "prx" feature ctx.headerOwners)
          ⟨"error", fp, inc.line, "prx.include"⟩
        ++ condFinding (startsWithL (chars "poi_") leaf
            && !sameFeatureInclude leaf "poi" feature ctx.headerOwners)
          ⟨"error", fp, inc.line, "prx.include"⟩
        ++ condFinding (startsWithL (chars "cfg_") leaf && !isCoreCfg && !isProjectCfg
            && !sameFeatureInclude leaf "cfg" feature ctx.headerOwners)
          ⟨"error", fp, inc.line, "prx.include"⟩
        ++ condFinding (startsWithL (chars "db_") leaf && !isProjectCfg
            && !sameFeatureInclude leaf "db" feature ctx.headerOwners)
          ⟨"error", fp, inc.line, "prx.include"⟩
      else if role == "poiesis" then
        condFinding (startsWithL (chars "ida_") leaf)
          ⟨"error", fp, inc.line, "poi.include"⟩
        ++ condFinding (startsWithL (chars "prx_") leaf)
          ⟨"error", fp, inc.line, "poi.include"⟩
        ++ condFinding (startsWithL (chars "poi_") leaf
            && !sameFeatureInclude leaf "poi" feature ctx.headerOwners)
          ⟨"error", fp, inc.line, "poi.include"⟩
        ++ condFinding (startsWithL (chars "cfg_") leaf && !isCoreCfg && !isProjectCfg
            && !sameFeatureInclude leaf "cfg" feature ctx.headerOwners)
          ⟨"error", fp, inc.line, "poi.include"⟩
        ++ condFinding (startsWithL (chars "db_") leaf && !isProjectCfg
            && !sameFeatureInclude leaf "db" feature ctx.headerOwners)
          ⟨"error", fp, inc.line, "poi.include"⟩
      else [])
  ++ (if role == "feature_cfg" || role == "feature_db" || role == "datastream" then
        condFinding (startsAny ["ida_", "prx_", "poi_"] leaf)
          ⟨"error", fp, inc.line, "resource.include"⟩
      else [])
  ++ (if role == "service" || role == "middleware" then
        condFinding (startsAny ["ida_", "prx_", "poi_"] leaf)
          ⟨"error", fp, inc.line, "module.include"⟩
        ++ condFinding (ctx.resourceHeaderNames.any (fun n => n == leaf) && !isCoreCfg)
          ⟨"error", fp, inc.line, "module.resource"⟩
      else [])
  ++ (if role == "hal" || role == "bsp" then
        condFinding (role == "bsp" && startsWithL (chars "hal_") leaf)
          ⟨"error", fp, inc.line, "platform.direction"⟩
        ++ condFinding (startsAny ["ida_", "prx_", "poi_", "mdw_", "svc_"] leaf
            || (ctx.resourceHeaderNames.any (fun n => n == leaf) && !isCoreCfg))
          ⟨"error", fp, inc.line, "platform.include"⟩
      else [])

/-!
## C-family binding: location validation and the per-file driver
-/

/-- Location-validation findings for one file with a recognised role: the
`cfg_core.h` placement check plus the role/placement `elif` chain
(Verify-Comsect1Code.py lines 344-437). -/
def cLocFindings (t : CTree) (f : CFile) (role : String) : List Finding :=
  let p := f.path.data
  let name := cName f
  let underBootstrap := underPath p (cBootstrapDir t)
  let underService := underPath p (cServiceDir t)
  let underHal := underPath p (cHalDir t)
  let underBsp := underPath p (cBspDir t)
  let underDepsExtern := underPath p (cDepsExternDir t)
  let underDepsMw := underPath p (cDepsMwDir t)
  let underFeatures := underPath p (cFeaturesDir t)
  let underConfig := underPath p (cConfigDir t)
  let underStreams := underPath p (cStreamsDir t)
  let nested := underDepsExtern || underDepsMw
  let segFeatures := containsSubpath p (chars "\\\\project\\\\features\\\\")
  let segConfig := containsSubpath p (chars "\\\\project\\\\config\\\\")
  let segStreams := containsSubpath p (chars "\\\\project\\\\datastreams\\\\")
  let segBootstrap := containsSubpath p (chars "\\\\infra\\\\bootstrap\\\\")
  let segService := containsSubpath p (chars "\\\\infra\\\\service\\\\")
  let segHal := containsSubpath p (chars "\\\\infra\\\\platform\\\\hal\\\\")
  let segBsp := containsSubpath p (chars "\\\\infra\\\\platform\\\\bsp\\\\")
  let underAnyBootstrap := underBootstrap || (nested && segBootstrap)
  let underAnyService := underService || (nested && segService)
  let underAnyHal := underHal || (nested && segHal)
  let underAnyBsp := underBsp || (nested && segBsp)
  let underAnyFeatures := underFeatures || (nested && segFeatures)
  let underAnyConfig := underConfig || (nested && segConfig)
  let underAnyStreams := underStreams || (nested && segStreams)
  condFinding (lowerL name == chars "cfg_core.h" && !underAnyBootstrap)
    ⟨"error", f.path, 1, "path.bootstrap"⟩
  ++ (if role == "core_idea" then
        condFinding (!underAnyBootstrap) ⟨"error", f.path, 1, "path.bootstrap"⟩
      else if role == "core_poiesis" then
        condFinding (!underAnyBootstrap) ⟨"error", f.path, 1, "path.bootstrap"⟩
      else if role == "core_praxis" then
        condFinding (!underAnyBootstrap) ⟨"error", f.path, 1, "path.bootstrap"⟩
      else if role == "service" then
        condFinding (!underAnyService) ⟨"error", f.path, 1, "path.infra_service"⟩
      else if role == "hal" then
        condFinding (!underAnyHal) ⟨"error", f.path, 1, "path.infra_hal"⟩
      else if role == "bsp" then
        condFinding (!underAnyBsp) ⟨"error", f.path, 1, "path.infra_bsp"⟩
      else if role == "middleware" then
        condFinding (!underDepsMw && !underDepsExtern)
          ⟨"error", f.path, 1, "path.deps_middleware"⟩
      else if role == "idea" then
        condFinding (!underAnyFeatures) ⟨"error", f.path, 1, "path.project_feature"⟩
      else if role == "praxis" then
        condFinding (!underAnyFeatures) ⟨"error", f.path, 1, "path.project_feature"⟩
      else if role == "poiesis" then
        condFinding (!underAnyFeatures) ⟨"error", f.path, 1, "path.project_feature"⟩
      else if role == "feature_cfg" then
        (let isExternalNonFractalCfg := nested && !segFeatures && !segConfig
         if !isExternalNonFractalCfg && lowerL name != chars "cfg_core.h" then
           if lowerL name == chars "cfg_project.h" then
             condFinding (!underAnyConfig) ⟨"error", f.path, 1, "path.project_config"⟩
           else
             condFinding (!underAnyFeatures && !underAnyConfig)
               ⟨"error", f.path, 1, "path.feature_resource"⟩
         else [])
      else if role == "feature_db" then
        (let isExternalNonFractalDb := nested && !segFeatures && !segConfig
         if !isExternalNonFractalDb then
           if lowerL name == chars "db_project.h" then
             condFinding (!underAnyConfig) ⟨"error", f.path, 1, "path.project_config"⟩
           else
             condFinding (!underAnyFeatures && !underAnyConfig)
               ⟨"error", f.path, 1, "path.feature_resource"⟩
         else [])
      else if role == "datastream" then
        condFinding (!underAnyStreams && !underDepsMw && !underDepsExtern)
          ⟨"error", f.path, 1, "path.datastream"⟩
      else [])

/-- All findings of the per-file loop body for one source file: naming checks
with their early `continue`, location validation, then either the read-failure
finding or the per-include rule engine over the extracted includes. -/
def cFileFindings (t : CTree) (ctx : CRuleCtx) (f : CFile) : List Finding :=
  let p := f.path.data
  let role0 := getRoleInfo (cName f)
  let feature : Option Str :=
    match getFeatureFromPath p with
    | some ft => some ft
    | none => role0.2
  if role0.1 == "invalid_prefix" then [⟨"error", f.path, 1, "naming.prefix"⟩]
  else if role0.1 == "unknown" then
    condFinding (underPath p (cFeaturesDir t) || underPath p (cConfigDir t)
        || underPath p (cStreamsDir t) || underPath p (cBootstrapDir t))
      ⟨"error", f.path, 1, "naming.prefix"⟩
  else
    cLocFindings t f role0.1
    ++ (match cGetIncludes f with
        | Except.error _ => [⟨"error", f.path, 1, "read"⟩]
        | Except.ok incs => incs.flatMap (cIncludeFindings ctx role0.1 feature f.path))

/-- The layout-stage findings of `main` (lines 247-296): required directories
and files, legacy directories, and the empty-scan check. -/
def cLayoutFindings (t : CTree) : List Finding :=
  let root := t.root.data
  condFinding (!isDirIn t (cBootstrapDir t)) ⟨"error", t.root, 1, "layout.required"⟩
  ++ condFinding (!isDirIn t (cDepsDir t)) ⟨"error", t.root, 1, "layout.required"⟩
  ++ condFinding (!isFileIn t (cBootstrapDir t ++ chars "/cfg_core.h"))
      ⟨"error", t.root, 1, "layout.required"⟩
  ++ condFinding (isDirIn t (root ++ chars "/core/config"))
      ⟨"error", t.root, 1, "layout.legacy"⟩
  ++ (if isDirIn t (cConfigDir t) then
        condFinding (!(cProjectConfigNames t).any (fun n => n == chars "cfg_project.h"))
          ⟨"error", strOfL (cConfigDir t), 1, "layout.required"⟩
      else [⟨"error", t.root, 1, "layout.required"⟩])
  ++ condFinding (isDirIn t (root ++ chars "/features")) ⟨"error", t.root, 1, "layout.legacy"⟩
  ++ condFinding (isDirIn t (root ++ chars "/modules")) ⟨"error", t.root, 1, "layout.legacy"⟩
  ++ condFinding (isDirIn t (root ++ chars "/platform")) ⟨"error", t.root, 1, "layout.legacy"⟩
  ++ condFinding (cSourceFiles t).isEmpty ⟨"error", t.root, 1, "layout.required"⟩

/-!
## C-family binding: red-flag heuristics and the run verdict
-/

/-- The line-counting fold of `count_code_lines`: blank, comment (including
multi-line block comments) and preprocessor-directive lines are skipped. -/
def cCountAux : Bool → List String → Nat
  | _, [] => 0
  | inBlock, l :: rest =>
    let s := stripL l.data
    if inBlock then cCountAux (!isInfixL (chars "*/") s) rest
    else if startsWithL (chars "/*") s && !isInfixL (chars "*/") (s.drop 2) then
      cCountAux true rest
    else if s.isEmpty || startsWithL (chars "//") s || startsWithL (chars "/*") s
        || startsWithL (chars "*") s then
      cCountAux false rest
    else if s.head? == some '#' then cCountAux false rest
    else cCountAux false rest + 1

/-- Models `count_code_lines` of the C-family binding; an unreadable file
counts zero lines (the `OSError` path). -/
def cCountLines (f : CFile) : Nat :=
  if f.readable then cCountAux false f.lines else 0

/-- An option-char is a word character. -/
def isWordO (o : Option Char) : Bool :=
  match o with
  | some c => isWordC c
  | none => false

/-- The regex `\b` assertion between two adjacent (possibly absent)
characters. -/
def boundaryB (a b : Option Char) : Bool := isWordO a != isWordO b

/-- The domain keywords of `DOMAIN_CONDITIONAL_RE` (lower-cased; the regex is
case-insensitive and inputs are lower-cased before matching). -/
def domainKws : List Str :=
  [chars "mode", chars "state", chars "status", chars "level", chars "type",
   chars "flag", chars "enable", chars "disable", chars "active", chars "threshold"]

/-- The conditional keywords of `DOMAIN_CONDITIONAL_RE`. -/
def domainCondWords : List Str := [chars "if", chars "switch", chars "case"]

/-- A whole-word token match of `w` at the current position, `prev` being the
character just before that position. -/
def tokAt (w : Str) (prev : Option Char) (s : Str) : Bool :=
  match dropLit w s with
  | some rest => boundaryB prev w.head? && boundaryB w.getLast? rest.head?
  | none => false

/-- Search for a whole-word occurrence of any of `ws` anywhere in `s`. -/
def searchTok (ws : List Str) : Option Char → Str → Bool
  | prev, [] => ws.any (fun w => tokAt w prev [])
  | prev, c :: t => ws.any (fun w => tokAt w prev (c :: t)) || searchTok ws (some c) t

/-- A `DOMAIN_CONDITIONAL_RE` match starting at the current position: a
whole-word conditional keyword followed (same line) by a whole-word domain
keyword. -/
def domainTokHere (w : Str) (prev : Option Char) (s : Str) : Bool :=
  match dropLit w s with
  | some rest =>
    boundaryB prev w.head? && boundaryB w.getLast? rest.head?
      && searchTok domainKws w.getLast? rest
  | none => false

/-- Search for a `DOMAIN_CONDITIONAL_RE` match anywhere in the line. -/
def domainHitAux : Option Char → Str → Bool
  | prev, [] => domainCondWords.any (fun w => domainTokHere w prev [])
  | prev, c :: t =>
    domainCondWords.any (fun w => domainTokHere w prev (c :: t)) || domainHitAux (some c) t

/-- One line contains a `DOMAIN_CONDITIONAL_RE` match (the regex cannot span
lines: neither `.` nor the keyword literals match a newline). -/
def domainHit (l : Str) : Bool := domainHitAux none (lowerL l)

/-- Models `verify_red_flags` of the C-family binding: only `.c` files are
examined; an Idea-role file with fewer than the threshold (10) code lines
warns, and a Poiesis-role file with a domain-meaningful conditional warns. -/
def cVerifyRedFlags (files : List CFile) : List Finding :=
  files.flatMap (fun f =>
    if lowerL (suffixL (cName f)) != chars ".c" then []
    else
      let role := (getRoleInfo (cName f)).1
      condFinding (role == "idea" && decide (cCountLines f < 10))
        ⟨"warning", f.path, 0, "red-flag-empty-idea"⟩
      ++ condFinding (role == "poiesis" && f.readable
            && f.lines.any (fun l => domainHit l.data))
          ⟨"warning", f.path, 0, "red-flag-fat-poiesis"⟩)

/-- All findings of one C-family run, in emission order: layout stage, the
per-file loop, then the advisory red-flag stage. -/
def cMainFindings (t : CTree) : List Finding :=
  cLayoutFindings t
  ++ (cSourceFiles t).flatMap (cFileFindings t (cRuleCtx t))
  ++ cVerifyRedFlags (cSourceFiles t)

/-- Error severity test. -/
def isErrorF (g : Finding) : Bool := g.severity == "error"

/-- Models the return value of `main`: `2 if errors else 0`. -/
def cExitCode (t : CTree) : Nat :=
  if (cMainFindings t).any isErrorF then 2 else 0

/-!
## OOP binding (`Verify-OOPCode.py`): files, roles and helpers
-/

/-- A source file of the scanned tree for the OOP binding. -/
structure OFile where
  path : String
  lines : List String
  readable : Bool
deriving DecidableEq

/-- The file name (final path component) of an `OFile`. -/
def oName (f : OFile) : Str := baseNameL f.path.data

/-- The class/module name derived from the file (`extract_class_name`). -/
def oStem (f : OFile) : Str := stemL (oName f)

/-- Models `get_role`: the lower-cased name against `ROLE_PREFIXES` in
insertion order. -/
def oGetRole (name : Str) : Option String :=
  let n := lowerL name
  if startsWithL (chars "ida_") n then some "idea"
  else if startsWithL (chars "prx_") n then some "praxis"
  else if startsWithL (chars "poi_") n then some "poiesis"
  else none

/-- Models `get_prefix`. -/
def oGetPre (name : Str) : Option String :=
  let n := lowerL name
  if startsWithL (chars "ida_") n then some "ida_"
  else if startsWithL (chars "prx_") n then some "prx_"
  else if startsWithL (chars "poi_") n then some "poi_"
  else none

/-- Models `extract_feature_name`: the stem minus its recognised role tag,
with the original casing preserved (the prefix test is on the lower-cased
stem). -/
def extractFeatureName (f : OFile) : Option Str :=
  let stem := oStem f
  let low := lowerL stem
  if startsWithL (chars "ida_") low then some (stem.drop 4)
  else if startsWithL (chars "prx_") low then some (stem.drop 4)
  else if startsWithL (chars "poi_") low then some (stem.drop 4)
  else none

/-- Models `is_shared_resource`: the lower-cased name against the
`SHARED_RESOURCE_PREFIXES` set. -/
def isSharedResource (f : OFile) : Bool :=
  startsAny ["cfg_", "db_", "stm_", "svc_", "mdw_", "hal_", "bsp_"] (lowerL (oName f))

/-- A line whose stripped form opens with a comment marker, skipped by the
reference scanners (`'`, `//`, `/*`). -/
def oCommentLine (l : Str) : Bool :=
  let s := stripL l
  startsWithL ['\x27'] s || startsWithL (chars "//") s || startsWithL (chars "/*") s

/-- Generic position scan: does `test prev suffix` hold at some position of
the line, `prev` being the character just before that position? -/
def searchPos (test : Option Char → Str → Bool) : Option Char → Str → Bool
  | prev, [] => test prev []
  | prev, c :: t => test prev (c :: t) || searchPos test (some c) t

/-- Models `re.search` for the pattern `\b<escaped name>\b`, as compiled by
the reverse-dependency and cross-feature scanners. -/
def searchWordL (w : Str) (l : Str) : Bool := searchPos (tokAt w) none l

/-!
## OOP binding: Stage 1 — Idea-layer forbidden imports and calls
-/

/-- Consume exactly the `\s+` of an import pattern. -/
def spaces1 (s : Str) : Option Str :=
  match s with
  | c :: t => if isSpaceC c then some (t.dropWhile isSpaceC) else none
  | [] => none

/-- Shared shape of the `Imports`/`using` patterns: leading `\s*`, the
(case-folded) keyword, `\s+`, then the forbidden namespace literal, returning
what follows it.  All import patterns carry `re.IGNORECASE`, so the line is
matched lower-cased against lower-case literals. -/
def importTail (kw ns : String) (l : Str) : Option Str :=
  match dropLit (chars kw) ((lowerL l).dropWhile isSpaceC) with
  | none => none
  | some s1 =>
    match spaces1 s1 with
    | none => none
    | some s2 => dropLit (chars ns) s2

/-- The negative lookahead `(?!\s*\.\s*Color\b)` of `ida-no-drawing` (VB). -/
def lookColor (s : Str) : Bool :=
  match s.dropWhile isSpaceC with
  | '.' :: u =>
    match dropLit (chars "color") (u.dropWhile isSpaceC) with
    | some w => boundaryB ((chars "color").getLast?) w.head?
    | none => false
  | _ => false

/-- The `\s*;` tail of the C# import patterns. -/
def semiTail (s : Str) : Bool := (s.dropWhile isSpaceC).head? == some ';'

/-- `IDA_FORBIDDEN_IMPORTS_VB`, one matcher per rule id, in insertion order. -/
def vbImportRules : List (String × (Str → Bool)) :=
  [ ("ida-no-winforms", fun l => (importTail "imports" "system.windows.forms" l).isSome)
  , ("ida-no-drawing", fun l =>
      match importTail "imports" "system.drawing" l with
      | some s => !lookColor s
      | none => false)
  , ("ida-no-interop", fun l => (importTail "imports" "microsoft.office.interop" l).isSome)
  , ("ida-no-serialport", fun l => (importTail "imports" "system.io.ports" l).isSome)
  , ("ida-no-fileio", fun l =>
      match importTail "imports" "system.io" l with
      | some s => boundaryB (some 'o') s.head?
      | none => false) ]

/-- `IDA_FORBIDDEN_IMPORTS_CS`, one matcher per rule id, in insertion order. -/
def csImportRules : List (String × (Str → Bool)) :=
  [ ("ida-no-winforms", fun l =>
      match importTail "using" "system.windows.forms" l with
      | some s => semiTail s
      | none => false)
  , ("ida-no-drawing", fun l =>
      match importTail "using" "system.drawing" l with
      | some s => semiTail s
      | none => false)
  , ("ida-no-interop", fun l => (importTail "using" "microsoft.office.interop" l).isSome)
  , ("ida-no-serialport", fun l =>
      match importTail "using" "system.io.ports" l with
      | some s => semiTail s
      | none => false)
  , ("ida-no-fileio", fun l =>
      match importTail "using" "system.io" l with
      | some s => semiTail s
      | none => false) ]

/-- A literal followed by `\s*\(` (tail of every forbidden-call pattern). -/
def callTailParen (lit : String) (s : Str) : Bool :=
  match dropLit (chars lit) s with
  | some r => (r.dropWhile isSpaceC).head? == some '('
  | none => false

/-- `\.(?:Begin)?Invoke\s*\(` at the current position. -/
def invokeHere (_ : Option Char) (s : Str) : Bool :=
  match s with
  | '.' :: r =>
    (match dropLit (chars "Begin") r with
     | some r2 => callTailParen "Invoke" r2 || callTailParen "Invoke" r
     | none => callTailParen "Invoke" r)
  | _ => false

/-- `IDA_FORBIDDEN_CALLS`, one case-sensitive searcher per rule id, in
insertion order. -/
def oopCallRules : List (String × (Str → Bool)) :=
  [ ("ida-no-messagebox", fun l => searchPos
      (fun prev s => boundaryB prev (some 'M') && callTailParen "MessageBox.Show" s) none l)
  , ("ida-no-invoke", fun l => searchPos invokeHere none l)
  , ("ida-no-threadsleep", fun l => searchPos
      (fun prev s => boundaryB prev (some 'T') && callTailParen "Thread.Sleep" s) none l)
  , ("ida-no-processstart", fun l => searchPos
      (fun prev s => boundaryB prev (some 'P') && callTailParen "Process.Start" s) none l) ]

/-- The import rule table selected by extension (`.vb` vs anything else). -/
def oopImportRules (f : OFile) : List (String × (Str → Bool)) :=
  if lowerL (suffixL (oName f)) == chars ".vb" then vbImportRules else csImportRules

/-- Models `verify_idea_file`: the read-failure finding, else per line the
forbidden-import rules then the forbidden-call rules. -/
def oopVerifyIdea (f : OFile) : List Finding :=
  if !f.readable then [⟨"error", f.path, 0, "file-read-error"⟩]
  else
    (numbered 1 f.lines).flatMap (fun nl =>
      ((oopImportRules f).filterMap (fun r =>
        if r.2 nl.2.data then some (⟨"error", f.path, nl.1, r.1⟩ : Finding) else none))
      ++ (oopCallRules.filterMap (fun r =>
        if r.2 nl.2.data then some (⟨"error", f.path, nl.1, r.1⟩ : Finding) else none)))

/-!
## OOP binding: Stages 2 and 3 — reverse-dependency and cross-feature checks
-/

/-- The (class name, role label) pairs forbidden for the given role, built
from the role map in file order (`verify_reverse_dependencies`). -/
def oopForbiddenNames (role : String) (files : List OFile) : List (Str × String) :=
  (if role == "praxis" then ["idea"] else ["idea", "praxis"]).flatMap
    (fun fr => (files.filter (fun g => oGetRole (oName g) == some fr)).map
      (fun g => (oStem g, fr)))

/-- Models `verify_reverse_dependencies` for one `prx_`/`poi_` file. -/
def oopReverseDeps (role : String) (files : List OFile) (f : OFile) : List Finding :=
  if !(role == "praxis" || role == "poiesis") then []
  else
    let forb := oopForbiddenNames role files
    if forb.isEmpty then []
    else if !f.readable then [⟨"error", f.path, 0, "file-read-error"⟩]
    else
      let ownName := oStem f
      let pats := forb.filter (fun p => p.1 != ownName)
      let preStr : String :=
        match oGetPre (oName f) with
        | some p => p
        | none => "None"
      (numbered 1 f.lines).flatMap (fun nl =>
        if oCommentLine nl.2.data then []
        else pats.filterMap (fun p =>
          if searchWordL p.1 nl.2.data then
            some (⟨"error", f.path, nl.1, preStr ++ "no-" ++ p.2 ++ "-ref"⟩ : Finding)
          else none))

/-- One entry of the `cross_feature_names` list: a non-shared, role-classified
file of a different feature (case-insensitive comparison), yielding its class
and feature names. -/
def crossCandidate (own : Str) (o : OFile) : Option (Str × Str) :=
  if isSharedResource o then none
  else
    match extractFeatureName o with
    | none => none
    | some ofeat =>
      if lowerL ofeat == lowerL own then none
      else
        match oGetRole (oName o) with
        | some _ => some (oStem o, ofeat)
        | none => none

/-- Models `verify_cross_feature_references` for one file (the unused `role`
parameter of the Python signature is omitted). -/
def oopCrossFeature (f : OFile) (files : List OFile) : List Finding :=
  if isSharedResource f then []
  else
    match extractFeatureName f with
    | none => []
    | some own =>
      let names := files.filterMap (crossCandidate own)
      if names.isEmpty then []
      else if !f.readable then [⟨"error", f.path, 0, "file-read-error"⟩]
      else
        (numbered 1 f.lines).flatMap (fun nl =>
          if oCommentLine nl.2.data then []
          else names.filterMap (fun p =>
            if searchWordL p.1 nl.2.data then
              some (⟨"error", f.path, nl.1, "cross-feature-layer-ref"⟩ : Finding)
            else none))

/-!
## OOP binding: Stage 4 — red flags, aggregation and the run verdict
-/

/-- The line-counting fold of the OOP `count_code_lines` (note: a line opening
a block comment sets the in-comment state without checking for a same-line
`*/`, exactly as the source does). -/
def oCountAux : Bool → List String → Nat
  | _, [] => 0
  | inBlock, l :: rest =>
    let s := stripL l.data
    if inBlock then oCountAux (!isInfixL (chars "*/") s) rest
    else if startsWithL (chars "/*") s then oCountAux true rest
    else if s.isEmpty || startsWithL ['\x27'] s || startsWithL (chars "//") s then
      oCountAux false rest
    else oCountAux false rest + 1

/-- Models the OOP `count_code_lines`; an unreadable file counts zero. -/
def oCountLines (f : OFile) : Nat :=
  if f.readable then oCountAux false f.lines else 0

/-- First non-comment line (1-based) with a `DOMAIN_CONDITIONAL_RE` match
(the fat-poiesis loop breaks after the first hit). -/
def oopFirstDomainLine : Nat → List String → Option Nat
  | _, [] => none
  | i, l :: rest =>
    let s := stripL l.data
    if startsWithL ['\x27'] s || startsWithL (chars "//") s then
      oopFirstDomainLine (i + 1) rest
    else if domainHit l.data then some i
    else oopFirstDomainLine (i + 1) rest

/-- Models the OOP `verify_red_flags`: empty-idea warnings over `ida_` files,
then at most one fat-poiesis warning per `poi_` file (read failures are
silently skipped there). -/
def oopRedFlags (ida poi : List OFile) : List Finding :=
  ida.flatMap (fun f =>
    condFinding (decide (oCountLines f < 10)) ⟨"warning", f.path, 0, "red-flag-empty-idea"⟩)
  ++ poi.flatMap (fun f =>
    if !f.readable then []
    else
      match oopFirstDomainLine 1 f.lines with
      | some n => [(⟨"warning", f.path, n, "red-flag-fat-poiesis"⟩ : Finding)]
      | none => [])

/-- Nonstrict lexicographic comparison of character lists by code point,
as Python compares strings. -/
def lexLe : Str → Str → Bool
  | [], _ => true
  | _ :: _, [] => false
  | a :: s, b :: t => decide (a < b) || (a == b && lexLe s t)

/-- The sort key order of the aggregator: lexicographic on
`(file, line, rule)`, matching Python tuple comparison. -/
def keyLe (f g : Finding) : Bool :=
  if f.file = g.file then
    (if f.line = g.line then lexLe f.rule.data g.rule.data else decide (f.line < g.line))
  else lexLe f.file.data g.file.data

/-- Ordered insertion for the model of `list.sort`. -/
def insertLe (a : Finding) : List Finding → List Finding
  | [] => [a]
  | b :: l => if keyLe a b then a :: b :: l else b :: insertLe a l

/-- Models `findings.sort(key=lambda x: (x["file"], x["line"], x["rule"]))`.
Python's sort is stable; stability is immaterial here because findings that
compare equal on the key are equal records in this model (the severity is
determined by the rule), so insertion sort by the same key order produces the
same list. -/
def sortLe : List Finding → List Finding
  | [] => []
  | a :: l => insertLe a (sortLe l)

/-- The deduplication key of the aggregator. -/
def keyOf (g : Finding) : String × Nat × String := (g.file, g.line, g.rule)

/-- Models the seen-set deduplication loop: keeps the first finding of each
`(file, line, rule)` key. -/
def dedupSeen (seen : List (String × Nat × String)) : List Finding → List Finding
  | [] => []
  | g :: rest =>
    if seen.contains (keyOf g) then dedupSeen seen rest
    else g :: dedupSeen (keyOf g :: seen) rest

/-- The `ida_` files of a run, in collection order. -/
def oopIdaFiles (files : List OFile) : List OFile :=
  files.filter (fun f => oGetRole (oName f) == some "idea")

/-- The `prx_` files of a run. -/
def oopPrxFiles (files : List OFile) : List OFile :=
  files.filter (fun f => oGetRole (oName f) == some "praxis")

/-- The `poi_` files of a run. -/
def oopPoiFiles (files : List OFile) : List OFile :=
  files.filter (fun f => oGetRole (oName f) == some "poiesis")

/-- `all_layer_files`: every role-classified file. -/
def oopLayerFiles (files : List OFile) : List OFile :=
  files.filter (fun f => (oGetRole (oName f)).isSome)

/-- The concatenated findings of the four stages of `run`, in emission
order, before sorting and deduplication. -/
def oopRawFindings (files : List OFile) : List Finding :=
  (oopIdaFiles files).flatMap oopVerifyIdea
  ++ (oopPrxFiles files).flatMap (oopReverseDeps "praxis" files)
  ++ (oopPoiFiles files).flatMap (oopReverseDeps "poiesis" files)
  ++ (oopLayerFiles files).flatMap (fun f => oopCrossFeature f (oopLayerFiles files))
  ++ oopRedFlags (oopIdaFiles files) (oopPoiFiles files)

/-- `total_checked` of `run`. -/
def oopTotalChecked (files : List OFile) : Nat :=
  (oopIdaFiles files).length + (oopPrxFiles files).length + (oopPoiFiles files).length

/-- The final finding list of one OOP run: nothing when no layer files exist
(the early return), else the sorted, deduplicated findings. -/
def oopRunFindings (files : List OFile) : List Finding :=
  if oopTotalChecked files == 0 then []
  else dedupSeen [] (sortLe (oopRawFindings files))

/-- The exit status of `run`: 0 on the early no-layer-files return, else 0
exactly when no error-severity finding remains. -/
def oopExitCode (files : List OFile) : Nat :=
  if oopTotalChecked files == 0 then 0
  else if (oopRunFindings files).any isErrorF then 2 else 0

/-!
## Order and aggregation lemmas
-/

/-!
## Rule inventories and auxiliary definitions for the proofs
-/

/-- Every finding of a list satisfies `P`. -/
abbrev allP (P : Finding → Prop) (l : List Finding) : Prop := ∀ g ∈ l, P g

/-- The rule ids the location validator can emit. -/
def cPathRules : List String :=
  ["path.bootstrap", "path.infra_service", "path.infra_hal", "path.infra_bsp",
   "path.deps_middleware", "path.project_feature", "path.project_config",
   "path.feature_resource", "path.datastream"]

/-- The rule ids the per-include dependency rule engine can emit. -/
def cIncludeRules : List String :=
  ["include.deps_path", "ida_core.include", "ida.include", "poi_core.include",
   "prx_core.include", "prx.include", "poi.include", "resource.include",
   "module.include", "module.resource", "platform.direction", "platform.include"]

/-- The rule ids the per-file loop can emit. -/
def cFileRules : List String :=
  cPathRules ++ cIncludeRules ++ ["naming.prefix", "read"]

/-- The rule ids of the layout stage. -/
def cLayoutRules : List String := ["layout.required", "layout.legacy"]

/-- The two advisory red-flag rule ids, shared by both bindings. -/
def redFlagRules : List String := ["red-flag-empty-idea", "red-flag-fat-poiesis"]

/-- The rule ids of Stage 1 of the OOP binding. -/
def oopStage1Rules : List String :=
  ["file-read-error", "ida-no-winforms", "ida-no-drawing", "ida-no-interop",
   "ida-no-serialport", "ida-no-fileio", "ida-no-messagebox", "ida-no-invoke",
   "ida-no-threadsleep", "ida-no-processstart"]

/-- The rule ids Stage 2 of the OOP binding can emit. -/
def oopRevRules : List String :=
  ["file-read-error", "ida_no-idea-ref", "ida_no-praxis-ref", "prx_no-idea-ref",
   "prx_no-praxis-ref", "poi_no-idea-ref", "poi_no-praxis-ref", "Noneno-idea-ref",
   "Noneno-praxis-ref"]

/-- Every error-severity rule id of the OOP binding. -/
def oopErrorRules : List String :=
  oopStage1Rules ++ oopRevRules ++ ["cross-feature-layer-ref"]

/-- Marks the file at the given path unreadable, leaving everything else of
the file unchanged. -/
def setUnreadableF (p : String) (f : CFile) : CFile :=
  if f.path = p then { f with readable := false } else f

/-- The same tree with the file at the given path made unreadable. -/
def setUnreadable (p : String) (t : CTree) : CTree :=
  { t with files := t.files.map (setUnreadableF p) }

/-!
## Concrete scenario inputs
-/

/-- A tree whose only role-classified source file is vendored under
`deps/extern` inside a subtree that itself mirrors `project/features`
(claim C1's nested-unit scenario).  All required layout pieces exist. -/
def c1Tree : CTree :=
  { root := "/r"
    dirs := ["/r/infra/bootstrap", "/r/deps", "/r/project/config"]
    files :=
      [ ⟨"/r/infra/bootstrap/cfg_core.h", [], true⟩
      , ⟨"/r/project/config/cfg_project.h", [], true⟩
      , ⟨"/r/deps/extern/unit/project/features/demo/ida_demo.c", ["int f(void);"], true⟩ ] }

/-- A tree with everything required present and no violations: zero findings. -/
def c2Tree : CTree :=
  { root := "/r2"
    dirs := ["/r2/infra/bootstrap", "/r2/deps", "/r2/project/config"]
    files :=
      [ ⟨"/r2/infra/bootstrap/cfg_core.h", [], true⟩
      , ⟨"/r2/project/config/cfg_project.h", [], true⟩ ] }

/-- An empty rule context. -/
def c3Ctx : CRuleCtx := ⟨[], [], []⟩

/-- An include of the Core-contract header written through a `deps` path. -/
def c3Inc : CInclude :=
  ⟨5, chars "deps/extern/cfg_core.h", chars "cfg_core.h",
   chars "#include \"deps/extern/cfg_core.h\""⟩

/-- A plain same-directory include of the Core-contract header. -/
def c3PlainInc : CInclude :=
  ⟨9, chars "cfg_core.h", chars "cfg_core.h", chars "#include \"cfg_core.h\""⟩

/-- A root with nothing in it: every required-layout check fails at the same
`(file, line, rule)` key. -/
def c4Tree : CTree := ⟨"/r", [], []⟩

/-- A Poiesis-role include of a same-feature Idea header. -/
def c6Inc : CInclude :=
  ⟨7, chars "ida_demo.h", chars "ida_demo.h", chars "#include \"ida_demo.h\""⟩

/-- A shared-resource file that mentions a feature class. -/
def c7Shared : OFile := ⟨"/p/cfg_Util.vb", ["x = ida_Alpha.Run()"], true⟩

/-- Two feature files referencing each other's class names. -/
def c7IdaAlpha : OFile := ⟨"/p/ida_Alpha.vb", ["y = ida_Beta.Go()"], true⟩

/-- The second feature file of claim C7's witness scenario. -/
def c7IdaBeta : OFile := ⟨"/p/ida_Beta.vb", ["z = 1"], true⟩

/-- The OOP file set of claim C7's witness scenario. -/
def c7Files : List OFile := [c7Shared, c7IdaAlpha, c7IdaBeta]

/-- An unreadable Poiesis file that is the only layer file of its run:
no stage reports its read failure (claim C8's counterexample). -/
def c8PoiFile : OFile := ⟨"/p/poi_Solo.vb", ["x = 1"], false⟩

/-- A complete tree whose single feature file is unreadable. -/
def c8Tree : CTree :=
  { root := "/r8"
    dirs := ["/r8/infra/bootstrap", "/r8/deps", "/r8/project/config"]
    files :=
      [ ⟨"/r8/infra/bootstrap/cfg_core.h", [], true⟩
      , ⟨"/r8/project/config/cfg_project.h", [], true⟩
      , ⟨"/r8/project/features/demo/ida_demo.c", ["int f(void);"], false⟩ ] }

/-- An unreadable Idea-role OOP file. -/
def c8OFile : OFile := ⟨"/p/ida_X.vb", ["y"], false⟩

/-- An Idea-role header with fewer than 10 code lines: the C-family red-flag
stage skips it because only `.c` files are examined (claim C9). -/
def c9HeaderFile : CFile := ⟨"/r/project/features/demo/ida_demo.h", ["int x;"], true⟩

/-- A complete tree containing one tiny Idea-role `.c` file. -/
def c9Tree : CTree :=
  { root := "/r9"
    dirs := ["/r9/infra/bootstrap", "/r9/deps", "/r9/project/config"]
    files :=
      [ ⟨"/r9/infra/bootstrap/cfg_core.h", [], true⟩
      , ⟨"/r9/project/config/cfg_project.h", [], true⟩
      , ⟨"/r9/project/features/demo/ida_demo.c", ["int f(void) { return 1; }"], true⟩ ] }

/-- A tiny Idea-role OOP file. -/
def c9OFile : OFile := ⟨"/p/ida_Tiny.vb", ["Dim x"], true⟩

/-- A bare tree producing a layout error finding. -/
def c10Tree : CTree := ⟨"/rx", [], []⟩

/-- An OOP file set producing a red-flag warning finding. -/
def c10Files : List OFile := [⟨"/p/ida_W.vb", [], true⟩]

/-!
## Lemmas
-/

theorem startsWithL_append (p r : Str) : startsWithL p (p ++ r) = true := by
  induction p with
  | nil => rfl
  | cons c t ih => simp [startsWithL, ih]

theorem startsWithL_iff {p s : Str} : startsWithL p s = true ↔ ∃ t, s = p ++ t := by
  induction p generalizing s with
  | nil => simp [startsWithL]
  | cons c p ih =>
    cases s with
    | nil => simp [startsWithL]
    | cons d t =>
      simp only [startsWithL, Bool.and_eq_true, beq_iff_eq, ih, List.cons_append,
        List.cons_eq_cons]
      constructor
      · rintro ⟨rfl, u, rfl⟩
        exact ⟨u, rfl, rfl⟩
      · rintro ⟨u, rfl, rfl⟩
        exact ⟨rfl, u, rfl⟩

theorem dropLit_eq_append {p s r : Str} : dropLit p s = some r ↔ s = p ++ r := by
  induction p generalizing s with
  | nil => simp [dropLit]
  | cons c p ih =>
    cases s with
    | nil => simp [dropLit]
    | cons d t =>
      by_cases h : c = d
      · subst h
        simp [dropLit, ih, List.cons_eq_cons]
      · have hbd : (c == d) = false := by simp [h]
        simp only [dropLit, hbd, Bool.false_eq_true, if_false, reduceCtorEq, false_iff,
          List.cons_append, List.cons_eq_cons, not_and]
        exact fun hdc _ => h (Eq.symm hdc)

theorem classifyStem_eq_classifySpec (s : Str) : classifyStem s = classifySpec s := by
  by_cases h0 : startsWithL (chars "inf_") s = true
  · obtain ⟨t, rfl⟩ := startsWithL_iff.mp h0
    rfl
  by_cases h1 : s = chars "ida_core"
  · subst h1; rfl
  by_cases h2 : s = chars "poi_core"
  · subst h2; rfl
  by_cases h3 : s = chars "prx_core"
  · subst h3; rfl
  simp only [Bool.not_eq_true] at h0
  have hb1 : (s == chars "ida_core") = false := beq_eq_false_iff_ne.mpr h1
  have hb2 : (s == chars "poi_core") = false := beq_eq_false_iff_ne.mpr h2
  have hb3 : (s == chars "prx_core") = false := beq_eq_false_iff_ne.mpr h3
  cases h4 : dropLit (chars "ida_") s with
  | some r =>
    obtain rfl := dropLit_eq_append.mp h4
    cases r with
    | nil => rfl
    | cons c t =>
      unfold classifyStem classifySpec twoSegMatch
      simp [specCoreNames, specFeatureTags, specInfraTags, List.find?, List.findSome?,
        hb1, hb2, hb3, h4, h0]
  | none =>
  cases h5 : dropLit (chars "prx_") s with
  | some r =>
    obtain rfl := dropLit_eq_append.mp h5
    cases r with
    | nil => rfl
    | cons c t =>
      unfold classifyStem classifySpec twoSegMatch
      simp [specCoreNames, specFeatureTags, specInfraTags, List.find?, List.findSome?,
        hb1, hb2, hb3, h4, h5, h0]
  | none =>
  cases h6 : dropLit (chars "poi_") s with
  | some r =>
    obtain rfl := dropLit_eq_append.mp h6
    cases r with
    | nil => rfl
    | cons c t =>
      unfold classifyStem classifySpec twoSegMatch
      simp [specCoreNames, specFeatureTags, specInfraTags, List.find?, List.findSome?,
        hb1, hb2, hb3, h4, h5, h6, h0]
  | none =>
  cases h7 : dropLit (chars "cfg_") s with
  | some r =>
    obtain rfl := dropLit_eq_append.mp h7
    cases r with
    | nil => rfl
    | cons c t =>
      unfold classifyStem classifySpec twoSegMatch
      simp [specCoreNames, specFeatureTags, specInfraTags, List.find?, List.findSome?,
        hb1, hb2, hb3, h4, h5, h6, h7, h0]
  | none =>
  cases h8 : dropLit (chars "db_") s with
  | some r =>
    obtain rfl := dropLit_eq_append.mp h8
    cases r with
    | nil => rfl
    | cons c t =>
      unfold classifyStem classifySpec twoSegMatch
      simp [specCoreNames, specFeatureTags, specInfraTags, List.find?, List.findSome?,
        hb1, hb2, hb3, h4, h5, h6, h7, h8, h0]
  | none =>
  by_cases hs1 : startsWithL (chars "svc_") s = true
  · obtain ⟨t, rfl⟩ := startsWithL_iff.mp hs1
    rfl
  by_cases hs2 : startsWithL (chars "mdw_") s = true
  · obtain ⟨t, rfl⟩ := startsWithL_iff.mp hs2
    rfl
  by_cases hs3 : startsWithL (chars "hal_") s = true
  · obtain ⟨t, rfl⟩ := startsWithL_iff.mp hs3
    rfl
  by_cases hs4 : startsWithL (chars "bsp_") s = true
  · obtain ⟨t, rfl⟩ := startsWithL_iff.mp hs4
    rfl
  by_cases hs5 : startsWithL (chars "stm_") s = true
  · obtain ⟨t, rfl⟩ := startsWithL_iff.mp hs5
    rfl
  simp only [Bool.not_eq_true] at hs1 hs2 hs3 hs4 hs5
  unfold classifyStem classifySpec twoSegMatch
  simp [specCoreNames, specFeatureTags, specInfraTags, List.find?, List.findSome?,
    hb1, hb2, hb3, h4, h5, h6, h7, h8, h0, hs1, hs2, hs3, hs4, hs5]

theorem mem_condFinding {b : Bool} {f g : Finding} :
    g ∈ condFinding b f ↔ b = true ∧ g = f := by
  cases b <;> simp [condFinding]

theorem lexLe_total (a b : Str) : lexLe a b = true ∨ lexLe b a = true := by
  induction a generalizing b with
  | nil => left; rfl
  | cons c s ih =>
    cases b with
    | nil => right; rfl
    | cons d t =>
      rcases lt_trichotomy c d with h | h | h
      · left; simp [lexLe, h]
      · subst h
        rcases ih t with h2 | h2
        · left; simp [lexLe, h2]
        · right; simp [lexLe, h2]
      · right; simp [lexLe, h]

theorem lexLe_antisymm {a b : Str} (h1 : lexLe a b = true) (h2 : lexLe b a = true) :
    a = b := by
  induction a generalizing b with
  | nil =>
    cases b with
    | nil => rfl
    | cons d t => simp [lexLe] at h2
  | cons c s ih =>
    cases b with
    | nil => simp [lexLe] at h1
    | cons d t =>
      simp only [lexLe, Bool.or_eq_true, decide_eq_true_eq, Bool.and_eq_true,
        beq_iff_eq] at h1 h2
      rcases h1 with h1 | ⟨he1, h1⟩
      · rcases h2 with h2 | ⟨he2, h2⟩
        · exact absurd h1 (lt_asymm h2)
        · subst he2; exact absurd h1 (lt_irrefl _)
      · subst he1
        rcases h2 with h2 | ⟨he2, h2⟩
        · exact absurd h2 (lt_irrefl _)
        · rw [ih h1 h2]

theorem lexLe_trans {a b c : Str} (h1 : lexLe a b = true) (h2 : lexLe b c = true) :
    lexLe a c = true := by
  induction a generalizing b c with
  | nil => rfl
  | cons x s ih =>
    cases b with
    | nil => simp [lexLe] at h1
    | cons y t =>
      cases c with
      | nil => simp [lexLe] at h2
      | cons z u =>
        simp only [lexLe, Bool.or_eq_true, decide_eq_true_eq, Bool.and_eq_true,
          beq_iff_eq] at h1 h2 ⊢
        rcases h1 with h1 | ⟨he1, h1⟩
        · rcases h2 with h2 | ⟨he2, h2⟩
          · exact Or.inl (lt_trans h1 h2)
          · subst he2; exact Or.inl h1
        · subst he1
          rcases h2 with h2 | ⟨he2, h2⟩
          · exact Or.inl h2
          · subst he2; exact Or.inr ⟨rfl, ih h1 h2⟩

theorem lexLe_refl (a : Str) : lexLe a a = true := by
  induction a with
  | nil => rfl
  | cons c s ih => simp [lexLe, ih]

theorem keyLe_total (f g : Finding) : keyLe f g = true ∨ keyLe g f = true := by
  unfold keyLe
  by_cases hf : f.file = g.file
  · rw [if_pos hf, if_pos hf.symm]
    by_cases hl : f.line = g.line
    · rw [if_pos hl, if_pos hl.symm]
      exact lexLe_total _ _
    · rw [if_neg hl, if_neg (fun h => hl (Eq.symm h))]
      simp only [decide_eq_true_eq]
      omega
  · rw [if_neg hf, if_neg (fun h => hf (Eq.symm h))]
    exact lexLe_total _ _

theorem string_eq_of_data_eq {a b : String} (h : a.data = b.data) : a = b := by
  cases a; cases b; exact congrArg String.mk h

theorem keyLe_trans {f g h : Finding} (h1 : keyLe f g = true) (h2 : keyLe g h = true) :
    keyLe f h = true := by
  unfold keyLe at h1 h2 ⊢
  by_cases hfg : f.file = g.file
  · by_cases hgh : g.file = h.file
    · have hfh : f.file = h.file := hfg.trans hgh
      rw [if_pos hfg] at h1
      rw [if_pos hgh] at h2
      rw [if_pos hfh]
      by_cases hl1 : f.line = g.line
      · by_cases hl2 : g.line = h.line
        · have hl3 : f.line = h.line := hl1.trans hl2
          rw [if_pos hl1] at h1
          rw [if_pos hl2] at h2
          rw [if_pos hl3]
          exact lexLe_trans h1 h2
        · rw [if_neg hl2] at h2
          simp only [decide_eq_true_eq] at h2
          have hl3 : ¬f.line = h.line := by omega
          rw [if_neg hl3]
          simp only [decide_eq_true_eq]
          omega
      · rw [if_neg hl1] at h1
        simp only [decide_eq_true_eq] at h1
        by_cases hl2 : g.line = h.line
        · have hl3 : ¬f.line = h.line := by omega
          rw [if_neg hl3]
          simp only [decide_eq_true_eq]
          omega
        · rw [if_neg hl2] at h2
          simp only [decide_eq_true_eq] at h2
          have hl3 : ¬f.line = h.line := by omega
          rw [if_neg hl3]
          simp only [decide_eq_true_eq]
          omega
    · have hfh : ¬f.file = h.file := fun he => hgh (hfg.symm.trans he)
      rw [if_neg hgh] at h2
      rw [if_neg hfh, hfg]
      exact h2
  · by_cases hgh : g.file = h.file
    · have hfh : ¬f.file = h.file := fun he => hfg (he.trans hgh.symm)
      rw [if_neg hfg] at h1
      rw [if_neg hfh, ← hgh]
      exact h1
    · rw [if_neg hfg] at h1
      rw [if_neg hgh] at h2
      by_cases hfh : f.file = h.file
      · exfalso
        apply hfg
        apply string_eq_of_data_eq
        apply lexLe_antisymm h1
        rw [← hfh] at h2
        exact h2
      · rw [if_neg hfh]
        exact lexLe_trans h1 h2

theorem mem_insertLe {a g : Finding} {l : List Finding} :
    g ∈ insertLe a l ↔ g = a ∨ g ∈ l := by
  induction l with
  | nil => simp [insertLe]
  | cons b t ih =>
    unfold insertLe
    by_cases h : keyLe a b = true
    · rw [if_pos h]
      simp only [List.mem_cons]
    · rw [if_neg h]
      simp only [List.mem_cons, ih]
      tauto

theorem mem_sortLe {g : Finding} {l : List Finding} : g ∈ sortLe l ↔ g ∈ l := by
  induction l with
  | nil => simp [sortLe]
  | cons a t ih => simp [sortLe, mem_insertLe, ih]

theorem insertLe_pairwise {a : Finding} {l : List Finding}
    (h : l.Pairwise (fun x y => keyLe x y = true)) :
    (insertLe a l).Pairwise (fun x y => keyLe x y = true) := by
  induction l with
  | nil => simp [insertLe]
  | cons b t ih =>
    rcases List.pairwise_cons.mp h with ⟨hb, ht⟩
    unfold insertLe
    by_cases hab : keyLe a b = true
    · rw [if_pos hab]
      refine List.pairwise_cons.mpr ⟨?_, h⟩
      intro y hy
      rcases List.mem_cons.mp hy with rfl | hy
      · exact hab
      · exact keyLe_trans hab (hb y hy)
    · rw [if_neg hab]
      have hba : keyLe b a = true := (keyLe_total a b).resolve_left hab
      refine List.pairwise_cons.mpr ⟨?_, ih ht⟩
      intro y hy
      rcases mem_insertLe.mp hy with rfl | hy
      · exact hba
      · exact hb y hy

theorem sortLe_pairwise (l : List Finding) :
    (sortLe l).Pairwise (fun x y => keyLe x y = true) := by
  induction l with
  | nil => simp [sortLe]
  | cons a t ih => exact insertLe_pairwise ih

theorem dedupSeen_sublist (seen : List (String × Nat × String)) (l : List Finding) :
    (dedupSeen seen l).Sublist l := by
  induction l generalizing seen with
  | nil => simp [dedupSeen]
  | cons g rest ih =>
    unfold dedupSeen
    by_cases h : seen.contains (keyOf g) = true
    · rw [if_pos h]
      exact List.Sublist.cons g (ih seen)
    · rw [if_neg h]
      exact List.Sublist.cons₂ g (ih (keyOf g :: seen))

theorem mem_of_mem_dedupSeen {seen : List (String × Nat × String)} {l : List Finding}
    {g : Finding} (h : g ∈ dedupSeen seen l) : g ∈ l :=
  (dedupSeen_sublist seen l).mem h

theorem dedupSeen_not_seen {seen : List (String × Nat × String)} {l : List Finding}
    {g : Finding} (h : g ∈ dedupSeen seen l) : keyOf g ∉ seen := by
  induction l generalizing seen with
  | nil => simp [dedupSeen] at h
  | cons b rest ih =>
    unfold dedupSeen at h
    by_cases hb : seen.contains (keyOf b) = true
    · rw [if_pos hb] at h
      exact ih h
    · rw [if_neg hb] at h
      rcases List.mem_cons.mp h with rfl | h
      · simpa using hb
      · intro hmem
        exact (ih h) (List.mem_cons_of_mem _ hmem)

theorem dedupSeen_keys_distinct (seen : List (String × Nat × String)) (l : List Finding) :
    (dedupSeen seen l).Pairwise (fun a b => keyOf a ≠ keyOf b) := by
  induction l generalizing seen with
  | nil => simp [dedupSeen]
  | cons g rest ih =>
    unfold dedupSeen
    by_cases h : seen.contains (keyOf g) = true
    · rw [if_pos h]
      exact ih seen
    · rw [if_neg h]
      refine List.pairwise_cons.mpr ⟨?_, ih (keyOf g :: seen)⟩
      intro y hy he
      exact (dedupSeen_not_seen hy) (by simp [he])

theorem dedupSeen_covers {l : List Finding} {g : Finding}
    (hg : g ∈ l) :
    ∀ seen, keyOf g ∉ seen → ∃ g' ∈ dedupSeen seen l, keyOf g' = keyOf g := by
  induction l with
  | nil => simp at hg
  | cons b rest ih =>
    intro seen hseen
    unfold dedupSeen
    by_cases hb : seen.contains (keyOf b) = true
    · rw [if_pos hb]
      rcases List.mem_cons.mp hg with rfl | hg
      · exact absurd (by simpa using hb) hseen
      · exact ih hg seen hseen
    · rw [if_neg hb]
      by_cases hk : keyOf g = keyOf b
      · exact ⟨b, List.mem_cons_self b _, hk.symm⟩
      · rcases List.mem_cons.mp hg with rfl | hg
        · exact absurd rfl hk
        · obtain ⟨g', hg', he⟩ := ih hg (keyOf b :: seen)
            (by simp [hseen, fun h => hk h])
          exact ⟨g', List.mem_cons_of_mem _ hg', he⟩

theorem allP_append {P : Finding → Prop} {A B : List Finding}
    (hA : allP P A) (hB : allP P B) : allP P (A ++ B) := by
  intro g hg
  rcases List.mem_append.mp hg with h | h
  · exact hA g h
  · exact hB g h

theorem allP_ite {P : Finding → Prop} {c : Prop} [Decidable c] {A B : List Finding}
    (hA : allP P A) (hB : allP P B) : allP P (if c then A else B) := by
  split
  · exact hA
  · exact hB

theorem allP_condFinding {P : Finding → Prop} {b : Bool} {f : Finding}
    (h : P f) : allP P (condFinding b f) := by
  intro g hg
  rcases mem_condFinding.mp hg with ⟨-, rfl⟩
  exact h

theorem allP_nil {P : Finding → Prop} : allP P ([] : List Finding) := by
  intro g hg
  simp at hg

theorem allP_single {P : Finding → Prop} {f : Finding} (h : P f) : allP P [f] := by
  intro g hg
  rcases List.mem_singleton.mp hg with rfl
  exact h

theorem allP_flatMap {P : Finding → Prop} {h : α → List Finding} {l : List α}
    (hl : ∀ a ∈ l, allP P (h a)) : allP P (l.flatMap h) := by
  intro g hg
  rcases List.mem_flatMap.mp hg with ⟨a, ha, hga⟩
  exact hl a ha g hga

theorem allP_filterMap {P : Finding → Prop} {h : α → Option Finding} {l : List α}
    (hl : ∀ a ∈ l, ∀ g, h a = some g → P g) : allP P (l.filterMap h) := by
  intro g hg
  rcases List.mem_filterMap.mp hg with ⟨a, ha, hga⟩
  exact hl a ha g hga

theorem allP_mono {P Q : Finding → Prop} {l : List Finding}
    (hl : allP P l) (hPQ : ∀ g, P g → Q g) : allP Q l := by
  intro g hg
  exact hPQ g (hl g hg)

theorem cLocFindings_shape (t : CTree) (f : CFile) (role : String) :
    allP (fun g => g.severity = "error" ∧ g.file = f.path ∧ g.line = 1
      ∧ g.rule ∈ cPathRules) (cLocFindings t f role) := by
  unfold cLocFindings
  repeat' first
    | apply allP_append
    | apply allP_ite
    | apply allP_condFinding
    | apply allP_single
    | apply allP_nil
  all_goals exact ⟨rfl, rfl, rfl, by simp [cPathRules]⟩

theorem cIncludeFindings_shape (ctx : CRuleCtx) (role : String) (feature : Option Str)
    (fp : String) (inc : CInclude) :
    allP (fun g => g.severity = "error" ∧ g.file = fp ∧ g.line = inc.line
      ∧ g.rule ∈ cIncludeRules) (cIncludeFindings ctx role feature fp inc) := by
  unfold cIncludeFindings
  repeat' first
    | apply allP_append
    | apply allP_ite
    | apply allP_condFinding
    | apply allP_single
    | apply allP_nil
  all_goals exact ⟨rfl, rfl, rfl, by simp [cIncludeRules]⟩

theorem cFileFindings_shape (t : CTree) (ctx : CRuleCtx) (f : CFile) :
    allP (fun g => g.severity = "error" ∧ g.file = f.path ∧ g.rule ∈ cFileRules)
      (cFileFindings t ctx f) := by
  unfold cFileFindings
  apply allP_ite
  · exact allP_single ⟨rfl, rfl, by simp [cFileRules]⟩
  apply allP_ite
  · exact allP_condFinding ⟨rfl, rfl, by simp [cFileRules]⟩
  apply allP_append
  · exact allP_mono (cLocFindings_shape t f _)
      (fun g hg => ⟨hg.1, hg.2.1, by simp [cFileRules, hg.2.2.2]⟩)
  cases hinc : cGetIncludes f with
  | error e => exact allP_single ⟨rfl, rfl, by simp [cFileRules]⟩
  | ok incs =>
    apply allP_flatMap
    intro inc hi
    exact allP_mono (cIncludeFindings_shape ctx _ _ f.path inc)
      (fun g hg => ⟨hg.1, hg.2.1, by simp [cFileRules]; tauto⟩)

theorem cLayoutFindings_shape (t : CTree) :
    allP (fun g => g.severity = "error" ∧ g.rule ∈ cLayoutRules) (cLayoutFindings t) := by
  unfold cLayoutFindings
  repeat' first
    | apply allP_append
    | apply allP_ite
    | apply allP_condFinding
    | apply allP_single
    | apply allP_nil
  all_goals exact ⟨rfl, by simp [cLayoutRules]⟩

theorem cVerifyRedFlags_shape (files : List CFile) :
    allP (fun g => g.severity = "warning" ∧ g.rule ∈ redFlagRules
      ∧ ∃ f ∈ files, g.file = f.path) (cVerifyRedFlags files) := by
  unfold cVerifyRedFlags
  apply allP_flatMap
  intro f hf
  repeat' first
    | apply allP_append
    | apply allP_ite
    | apply allP_condFinding
    | apply allP_single
    | apply allP_nil
  all_goals exact ⟨rfl, by simp [redFlagRules], f, hf, rfl⟩

theorem oGetPre_cases (n : Str) : oGetPre n = some "ida_" ∨ oGetPre n = some "prx_"
    ∨ oGetPre n = some "poi_" ∨ oGetPre n = none := by
  unfold oGetPre
  by_cases h1 : startsWithL (chars "ida_") (lowerL n) = true
  · simp [h1]
  by_cases h2 : startsWithL (chars "prx_") (lowerL n) = true
  · simp [h1, h2]
  by_cases h3 : startsWithL (chars "poi_") (lowerL n) = true
  · simp [h1, h2, h3]
  · simp [h1, h2, h3]

theorem oopForbiddenNames_label {role : String} {files : List OFile} {p : Str × String}
    (hp : p ∈ oopForbiddenNames role files) : p.2 = "idea" ∨ p.2 = "praxis" := by
  unfold oopForbiddenNames at hp
  rcases List.mem_flatMap.mp hp with ⟨fr, hfr, hmem⟩
  rcases List.mem_map.mp hmem with ⟨g, hgm, rfl⟩
  split at hfr <;> simp_all

theorem oopVerifyIdea_shape (f : OFile) :
    allP (fun g => g.severity = "error" ∧ g.file = f.path ∧ g.rule ∈ oopStage1Rules)
      (oopVerifyIdea f) := by
  unfold oopVerifyIdea
  apply allP_ite
  · exact allP_single ⟨rfl, rfl, by simp [oopStage1Rules]⟩
  apply allP_flatMap
  intro nl _
  apply allP_append
  · apply allP_filterMap
    intro r hr g hg
    split at hg
    · cases hg
      refine ⟨rfl, rfl, ?_⟩
      unfold oopImportRules at hr
      split at hr <;>
        simp only [vbImportRules, csImportRules, List.mem_cons,
          List.not_mem_nil, or_false] at hr <;>
        rcases hr with rfl | rfl | rfl | rfl | rfl <;> simp [oopStage1Rules]
    · cases hg
  · apply allP_filterMap
    intro r hr g hg
    split at hg
    · cases hg
      refine ⟨rfl, rfl, ?_⟩
      simp only [oopCallRules, List.mem_cons, List.not_mem_nil, or_false] at hr
      rcases hr with rfl | rfl | rfl | rfl <;> simp [oopStage1Rules]
    · cases hg

theorem oopReverseDeps_shape (role : String) (files : List OFile) (f : OFile) :
    allP (fun g => g.severity = "error" ∧ g.file = f.path ∧ g.rule ∈ oopRevRules)
      (oopReverseDeps role files f) := by
  unfold oopReverseDeps
  apply allP_ite
  · exact allP_nil
  apply allP_ite
  · exact allP_nil
  apply allP_ite
  · exact allP_single ⟨rfl, rfl, by simp [oopRevRules]⟩
  apply allP_flatMap
  intro nl _
  apply allP_ite
  · exact allP_nil
  apply allP_filterMap
  intro p hp g hg
  split at hg
  · cases hg
    refine ⟨rfl, rfl, ?_⟩
    have hlbl : p.2 = "idea" ∨ p.2 = "praxis" :=
      oopForbiddenNames_label (List.mem_filter.mp hp).1
    rcases oGetPre_cases (oName f) with h | h | h | h <;> rw [h] <;>
      rcases hlbl with h2 | h2 <;> rw [h2] <;> simp [oopRevRules]
  · cases hg

theorem oopCrossFeature_shape (f : OFile) (files : List OFile) :
    allP (fun g => g.severity = "error" ∧ g.file = f.path
      ∧ (g.rule = "file-read-error" ∨ g.rule = "cross-feature-layer-ref"))
      (oopCrossFeature f files) := by
  unfold oopCrossFeature
  apply allP_ite
  · exact allP_nil
  cases hx : extractFeatureName f with
  | none => exact allP_nil
  | some own =>
    apply allP_ite
    · exact allP_nil
    apply allP_ite
    · exact allP_single ⟨rfl, rfl, Or.inl rfl⟩
    apply allP_flatMap
    intro nl _
    apply allP_ite
    · exact allP_nil
    apply allP_filterMap
    intro p hp g hg
    split at hg
    · cases hg
      exact ⟨rfl, rfl, Or.inr rfl⟩
    · cases hg

theorem oopRedFlags_shape (ida poi : List OFile) :
    allP (fun g => g.severity = "warning" ∧ g.rule ∈ redFlagRules
      ∧ ∃ f ∈ ida ++ poi, g.file = f.path) (oopRedFlags ida poi) := by
  unfold oopRedFlags
  apply allP_append
  · apply allP_flatMap
    intro f hf
    apply allP_condFinding
    exact ⟨rfl, by simp [redFlagRules], f, List.mem_append_left _ hf, rfl⟩
  · apply allP_flatMap
    intro f hf
    apply allP_ite
    · exact allP_nil
    cases hx : oopFirstDomainLine 1 f.lines with
    | none => exact allP_nil
    | some n =>
      exact allP_single ⟨rfl, by simp [redFlagRules], f, List.mem_append_right _ hf, rfl⟩

theorem oopErrorRules_of_stage1 {r : String} (h : r ∈ oopStage1Rules) :
    r ∈ oopErrorRules := by
  simp only [oopErrorRules, List.mem_append, List.mem_singleton]
  exact Or.inl (Or.inl h)

theorem oopErrorRules_of_rev {r : String} (h : r ∈ oopRevRules) :
    r ∈ oopErrorRules := by
  simp only [oopErrorRules, List.mem_append, List.mem_singleton]
  exact Or.inl (Or.inr h)

theorem oopErrorRules_cross : "cross-feature-layer-ref" ∈ oopErrorRules := by
  simp [oopErrorRules]

theorem oopRawFindings_shape (files : List OFile) :
    allP (fun g => (g.severity = "error" ∧ g.rule ∈ oopErrorRules)
      ∨ (g.severity = "warning" ∧ g.rule ∈ redFlagRules)) (oopRawFindings files) := by
  unfold oopRawFindings
  apply allP_append
  · apply allP_append
    · apply allP_append
      · apply allP_append
        · apply allP_flatMap
          intro f hf
          exact allP_mono (oopVerifyIdea_shape f)
            (fun g hg => Or.inl ⟨hg.1, oopErrorRules_of_stage1 hg.2.2⟩)
        · apply allP_flatMap
          intro f hf
          exact allP_mono (oopReverseDeps_shape "praxis" files f)
            (fun g hg => Or.inl ⟨hg.1, oopErrorRules_of_rev hg.2.2⟩)
      · apply allP_flatMap
        intro f hf
        exact allP_mono (oopReverseDeps_shape "poiesis" files f)
          (fun g hg => Or.inl ⟨hg.1, oopErrorRules_of_rev hg.2.2⟩)
    · apply allP_flatMap
      intro f hf
      refine allP_mono (oopCrossFeature_shape f (oopLayerFiles files)) (fun g hg => ?_)
      rcases hg.2.2 with h | h
      · exact Or.inl ⟨hg.1, h ▸ oopErrorRules_of_stage1 (by simp [oopStage1Rules])⟩
      · exact Or.inl ⟨hg.1, h ▸ oopErrorRules_cross⟩
  · exact allP_mono (oopRedFlags_shape _ _) (fun g hg => Or.inr ⟨hg.1, hg.2.1⟩)

theorem mem_oopRunFindings {files : List OFile} {g : Finding}
    (hg : g ∈ oopRunFindings files) : g ∈ oopRawFindings files := by
  unfold oopRunFindings at hg
  split at hg
  · simp at hg
  · exact mem_sortLe.mp (mem_of_mem_dedupSeen hg)

theorem oopRunFindings_shape (files : List OFile) :
    allP (fun g => (g.severity = "error" ∧ g.rule ∈ oopErrorRules)
      ∨ (g.severity = "warning" ∧ g.rule ∈ redFlagRules)) (oopRunFindings files) :=
  fun g hg => oopRawFindings_shape files g (mem_oopRunFindings hg)

theorem cMainFindings_shape (t : CTree) :
    allP (fun g => (g.severity = "error" ∧ g.rule ∈ cLayoutRules ++ cFileRules)
      ∨ (g.severity = "warning" ∧ g.rule ∈ redFlagRules)) (cMainFindings t) := by
  unfold cMainFindings
  apply allP_append
  · apply allP_append
    · exact allP_mono (cLayoutFindings_shape t)
        (fun g hg => Or.inl ⟨hg.1, by simp [hg.2]⟩)
    · apply allP_flatMap
      intro f hf
      exact allP_mono (cFileFindings_shape t (cRuleCtx t) f)
        (fun g hg => Or.inl ⟨hg.1, by simp [hg.2.2]⟩)
  · exact allP_mono (cVerifyRedFlags_shape _) (fun g hg => Or.inr ⟨hg.1, hg.2.1⟩)

theorem exit_formula (l : List Finding) :
    (if l.any isErrorF then 2 else 0) = (if l.countP isErrorF = 0 then 0 else 2) := by
  by_cases h : l.any isErrorF = true
  · rw [if_pos h]
    have hne : l.countP isErrorF ≠ 0 := by
      rcases List.any_eq_true.mp h with ⟨a, ha, hpa⟩
      intro h0
      exact (List.countP_eq_zero.mp h0) a ha hpa
    rw [if_neg hne]
  · rw [if_neg h]
    have h0 : l.countP isErrorF = 0 := by
      rw [List.countP_eq_zero]
      intro a ha hpa
      exact h (List.any_eq_true.mpr ⟨a, ha, hpa⟩)
    rw [if_pos h0]

theorem exit_zero_of_no_error {l : List Finding}
    (h : ∀ g ∈ l, g.severity ≠ "error") : (if l.any isErrorF then 2 else 0) = 0 := by
  rw [if_neg]
  intro hany
  rcases List.any_eq_true.mp hany with ⟨a, ha, hpa⟩
  exact h a ha (by simpa [isErrorF] using hpa)

theorem cRules_not_redFlag : ∀ r ∈ cLayoutRules ++ cFileRules, r ∉ redFlagRules := by
  decide

theorem oopRules_not_redFlag : ∀ r ∈ oopErrorRules, r ∉ redFlagRules := by
  decide

theorem countP_key_le_one {l : List Finding} {k : String × Nat × String}
    (h : l.Pairwise (fun a b => keyOf a ≠ keyOf b)) :
    l.countP (fun g => keyOf g == k) ≤ 1 := by
  induction l with
  | nil => simp
  | cons a t ih =>
    rcases List.pairwise_cons.mp h with ⟨ha, ht⟩
    by_cases hk : keyOf a = k
    · rw [List.countP_cons_of_pos _ _ (by simp [hk])]
      have hz : t.countP (fun g => keyOf g == k) = 0 := by
        rw [List.countP_eq_zero]
        intro b hb hpb
        exact ha b hb (by rw [hk]; exact (beq_iff_eq.mp hpb).symm ▸ rfl)
      omega
    · rw [List.countP_cons_of_neg _ _ (by simp [hk])]
      exact ih ht

theorem countP_pos_of_mem {l : List Finding} {g : Finding} {k : String × Nat × String}
    (hg : g ∈ l) (hk : keyOf g = k) : 1 ≤ l.countP (fun x => keyOf x == k) := by
  have hpos : 0 < l.countP (fun x => keyOf x == k) :=
    List.countP_pos_iff.mpr ⟨g, hg, by simp [hk]⟩
  omega

theorem filter_flatMap (q : Finding → Bool) (h : α → List Finding) (l : List α) :
    (l.flatMap h).filter q = l.flatMap (fun a => (h a).filter q) := by
  induction l with
  | nil => rfl
  | cons a t ih => simp [List.flatMap_cons, List.filter_append, ih]

theorem countP_flatMap (q : Finding → Bool) (h : α → List Finding) (l : List α) :
    (l.flatMap h).countP q = (l.map (fun a => (h a).countP q)).sum := by
  induction l with
  | nil => rfl
  | cons a t ih => simp [List.flatMap_cons, List.countP_append, ih]

theorem filterMap_filter_of_none {α β : Type} (h : α → Option β) (keep : α → Bool)
    (l : List α) (hnone : ∀ a ∈ l, keep a = false → h a = none) :
    l.filterMap h = (l.filter keep).filterMap h := by
  induction l with
  | nil => rfl
  | cons a t ih =>
    have ht : ∀ b ∈ t, keep b = false → h b = none :=
      fun b hb => hnone b (List.mem_cons_of_mem _ hb)
    by_cases hk : keep a = true
    · rw [List.filter_cons_of_pos hk]
      simp only [List.filterMap_cons, ih ht]
    · have hk' : keep a = false := by
        cases hka : keep a
        · rfl
        · exact absurd hka hk
      rw [List.filter_cons_of_neg (by simp [hk'])]
      simp only [List.filterMap_cons, hnone a (List.mem_cons_self a t) hk', ih ht]

theorem cCountAux_inBlock (mid rest : List String)
    (hm : ∀ l ∈ mid, isInfixL (chars "*/") (stripL l.data) = false) :
    cCountAux true (mid ++ "*/" :: rest) = cCountAux false rest := by
  induction mid with
  | nil =>
    show cCountAux true ("*/" :: rest) = cCountAux false rest
    rw [show cCountAux true ("*/" :: rest)
        = cCountAux (!isInfixL (chars "*/") (stripL ("*/" : String).data)) rest from rfl]
    have hcl : isInfixL (chars "*/") (stripL ("*/" : String).data) = true := by decide
    rw [hcl]
    rfl
  | cons l mid ih =>
    have hl := hm l (List.mem_cons_self l mid)
    have hmid : ∀ x ∈ mid, isInfixL (chars "*/") (stripL x.data) = false :=
      fun x hx => hm x (List.mem_cons_of_mem _ hx)
    show cCountAux true (l :: (mid ++ "*/" :: rest)) = cCountAux false rest
    rw [show cCountAux true (l :: (mid ++ "*/" :: rest))
        = cCountAux (!isInfixL (chars "*/") (stripL l.data)) (mid ++ "*/" :: rest) from rfl]
    rw [hl]
    exact ih hmid

theorem cCountAux_block (mid rest : List String)
    (hm : ∀ l ∈ mid, isInfixL (chars "*/") (stripL l.data) = false) :
    cCountAux false ("/*" :: mid ++ "*/" :: rest) = cCountAux false rest := by
  rw [show cCountAux false ("/*" :: mid ++ "*/" :: rest)
      = cCountAux true (mid ++ "*/" :: rest) from rfl]
  exact cCountAux_inBlock mid rest hm

theorem startsWithL_disj {q s : Str} {a b : Char} {p : Str} (hne : b ≠ a)
    (hp : startsWithL (a :: p) s = true) : startsWithL (b :: q) s = false := by
  rcases startsWithL_iff.mp hp with ⟨t, rfl⟩
  simp [startsWithL, hne]

theorem twoSegMatch_idea {s : Str} {rf : String × Str}
    (h : twoSegMatch s = some rf) (hi : rf.1 = "idea") :
    startsWithL (chars "ida_") s = true := by
  unfold twoSegMatch at h
  cases h4 : dropLit (chars "ida_") s with
  | some r =>
    obtain rfl := dropLit_eq_append.mp h4
    exact startsWithL_append _ _
  | none =>
    exfalso
    simp only [h4] at h
    cases h5 : dropLit (chars "prx_") s with
    | some r =>
      simp only [h5] at h
      by_cases he : r.isEmpty = true
      · rw [if_pos he] at h
        exact Option.noConfusion h
      · rw [if_neg he] at h
        rw [← Option.some.inj h] at hi
        simp at hi
    | none =>
      simp only [h5] at h
      cases h6 : dropLit (chars "poi_") s with
      | some r =>
        simp only [h6] at h
        by_cases he : r.isEmpty = true
        · rw [if_pos he] at h
          exact Option.noConfusion h
        · rw [if_neg he] at h
          rw [← Option.some.inj h] at hi
          simp at hi
      | none =>
        simp only [h6] at h
        cases h7 : dropLit (chars "cfg_") s with
        | some r =>
          simp only [h7] at h
          by_cases he : r.isEmpty = true
          · rw [if_pos he] at h
            exact Option.noConfusion h
          · rw [if_neg he] at h
            rw [← Option.some.inj h] at hi
            simp at hi
        | none =>
          simp only [h7] at h
          cases h8 : dropLit (chars "db_") s with
          | some r =>
            simp only [h8] at h
            by_cases he : r.isEmpty = true
            · rw [if_pos he] at h
              exact Option.noConfusion h
            · rw [if_neg he] at h
              rw [← Option.some.inj h] at hi
              simp at hi
          | none =>
            simp only [h8] at h
            exact Option.noConfusion h

theorem classifyStem_idea_startsWith {s : Str} (h : (classifyStem s).1 = "idea") :
    startsWithL (chars "ida_") s = true := by
  unfold classifyStem at h
  by_cases h0 : startsWithL (chars "inf_") s = true
  · rw [if_pos h0] at h
    exact absurd h (by decide)
  rw [if_neg h0] at h
  by_cases h1 : (s == chars "ida_core") = true
  · rw [if_pos h1] at h
    exact absurd h (by decide)
  rw [if_neg h1] at h
  by_cases h2 : (s == chars "poi_core") = true
  · rw [if_pos h2] at h
    exact absurd h (by decide)
  rw [if_neg h2] at h
  by_cases h3 : (s == chars "prx_core") = true
  · rw [if_pos h3] at h
    exact absurd h (by decide)
  rw [if_neg h3] at h
  cases htm : twoSegMatch s with
  | some rf =>
    rw [htm] at h
    exact twoSegMatch_idea htm h
  | none =>
    rw [htm] at h
    exfalso
    by_cases hs1 : startsWithL (chars "svc_") s = true
    · rw [if_pos hs1] at h
      exact absurd h (by decide)
    rw [if_neg hs1] at h
    by_cases hs2 : startsWithL (chars "mdw_") s = true
    · rw [if_pos hs2] at h
      exact absurd h (by decide)
    rw [if_neg hs2] at h
    by_cases hs3 : startsWithL (chars "hal_") s = true
    · rw [if_pos hs3] at h
      exact absurd h (by decide)
    rw [if_neg hs3] at h
    by_cases hs4 : startsWithL (chars "bsp_") s = true
    · rw [if_pos hs4] at h
      exact absurd h (by decide)
    rw [if_neg hs4] at h
    by_cases hs5 : startsWithL (chars "stm_") s = true
    · rw [if_pos hs5] at h
      exact absurd h (by decide)
    rw [if_neg hs5] at h
    exact absurd h (by decide)


theorem setUnreadableF_path (p : String) (f : CFile) :
    (setUnreadableF p f).path = f.path := by
  unfold setUnreadableF
  split <;> rfl

theorem setUnreadableF_of_ne {p : String} {f : CFile} (h : f.path ≠ p) :
    setUnreadableF p f = f := by
  unfold setUnreadableF
  rw [if_neg h]

theorem cName_setUnreadableF (p : String) (f : CFile) :
    cName (setUnreadableF p f) = cName f := by
  unfold cName
  rw [setUnreadableF_path]

theorem cIsSource_setUnreadableF (p : String) (f : CFile) :
    cIsSource (setUnreadableF p f) = cIsSource f := by
  unfold cIsSource
  rw [cName_setUnreadableF]

theorem cIsHeader_setUnreadableF (p : String) (f : CFile) :
    cIsHeader (setUnreadableF p f) = cIsHeader f := by
  unfold cIsHeader
  rw [cName_setUnreadableF]

theorem filter_map_comm {α : Type} (g : α → α) (p : α → Bool) (l : List α)
    (h : ∀ a, p (g a) = p a) : (l.map g).filter p = (l.filter p).map g := by
  induction l with
  | nil => rfl
  | cons a t ih =>
    simp only [List.map_cons, List.filter_cons, h a, ih]
    split <;> simp

theorem any_map_eq {α : Type} (g : α → α) (p : α → Bool) (l : List α)
    (h : ∀ a, p (g a) = p a) : (l.map g).any p = l.any p := by
  induction l with
  | nil => rfl
  | cons a t ih => simp only [List.map_cons, List.any_cons, h a, ih]

theorem filterMap_map_eq {α β : Type} (g : α → α) (h : α → Option β) (l : List α)
    (hh : ∀ a, h (g a) = h a) : (l.map g).filterMap h = l.filterMap h := by
  induction l with
  | nil => rfl
  | cons a t ih => simp only [List.map_cons, List.filterMap_cons, hh a, ih]

theorem filter_map_names {α β : Type} (g : α → α) (p : α → Bool) (n : α → β)
    (l : List α) (hp : ∀ a, p (g a) = p a) (hn : ∀ a, n (g a) = n a) :
    ((l.map g).filter p).map n = (l.filter p).map n := by
  induction l with
  | nil => rfl
  | cons a t ih =>
    simp only [List.map_cons, List.filter_cons, hp a]
    split
    · simp only [List.map_cons, hn a, ih]
    · exact ih

theorem cSourceFiles_setUnreadable (p : String) (t : CTree) :
    cSourceFiles (setUnreadable p t) = (cSourceFiles t).map (setUnreadableF p) := by
  show (t.files.map (setUnreadableF p)).filter cIsSource
      = (t.files.filter cIsSource).map (setUnreadableF p)
  exact filter_map_comm _ _ _ (cIsSource_setUnreadableF p)

theorem isFileIn_setUnreadable (p : String) (t : CTree) (q : Str) :
    isFileIn (setUnreadable p t) q = isFileIn t q := by
  show (t.files.map (setUnreadableF p)).any (fun f => f.path.data == q)
      = t.files.any (fun f => f.path.data == q)
  apply any_map_eq
  intro f
  show ((setUnreadableF p f).path.data == q) = (f.path.data == q)
  rw [setUnreadableF_path]

theorem cProjectConfigNames_setUnreadable (p : String) (t : CTree) :
    cProjectConfigNames (setUnreadable p t) = cProjectConfigNames t := by
  unfold cProjectConfigNames
  rw [show isDirIn (setUnreadable p t) (cConfigDir (setUnreadable p t))
      = isDirIn t (cConfigDir t) from rfl]
  split
  · show ((t.files.map (setUnreadableF p)).filter _).map cName = _
    apply filter_map_names
    · intro f
      show (dirOfL (setUnreadableF p f).path.data == cConfigDir (setUnreadable p t)
          && endsWithL (chars ".h") (cName (setUnreadableF p f))) = _
      rw [setUnreadableF_path, cName_setUnreadableF]
    · intro f
      exact cName_setUnreadableF p f
  · rfl

theorem cHeaderOwners_setUnreadable (p : String) (t : CTree) :
    cHeaderOwners (setUnreadable p t) = cHeaderOwners t := by
  unfold cHeaderOwners
  rw [cSourceFiles_setUnreadable]
  apply filterMap_map_eq
  intro f
  show (if cIsHeader (setUnreadableF p f) = true then
      (getFeatureFromPath (setUnreadableF p f).path.data).map
        (fun ft => (cName (setUnreadableF p f), ft))
    else none) = _
  rw [cIsHeader_setUnreadableF, setUnreadableF_path, cName_setUnreadableF]

theorem cIsResourceHeaderCandidate_setUnreadable (p : String) (t : CTree) (f : CFile) :
    cIsResourceHeaderCandidate (setUnreadable p t) (setUnreadableF p f)
      = cIsResourceHeaderCandidate t f := by
  unfold cIsResourceHeaderCandidate
  rw [cIsHeader_setUnreadableF, setUnreadableF_path, cName_setUnreadableF]
  rfl

theorem cResourceHeaderNames_setUnreadable (p : String) (t : CTree) :
    cResourceHeaderNames (setUnreadable p t) = cResourceHeaderNames t := by
  unfold cResourceHeaderNames
  rw [cSourceFiles_setUnreadable]
  apply filter_map_names
  · intro f
    exact cIsResourceHeaderCandidate_setUnreadable p t f
  · intro f
    exact cName_setUnreadableF p f

theorem cRuleCtx_setUnreadable (p : String) (t : CTree) :
    cRuleCtx (setUnreadable p t) = cRuleCtx t := by
  unfold cRuleCtx
  rw [cProjectConfigNames_setUnreadable, cResourceHeaderNames_setUnreadable,
    cHeaderOwners_setUnreadable]

theorem map_isEmpty {α β : Type} (g : α → β) (l : List α) :
    (l.map g).isEmpty = l.isEmpty := by
  cases l <;> rfl

theorem cLayoutFindings_setUnreadable (p : String) (t : CTree) :
    cLayoutFindings (setUnreadable p t) = cLayoutFindings t := by
  unfold cLayoutFindings
  rw [cProjectConfigNames_setUnreadable, cSourceFiles_setUnreadable,
    isFileIn_setUnreadable, map_isEmpty]
  rfl

theorem flatMap_congr_fin {α : Type} {h k : α → List Finding} {l : List α}
    (hc : ∀ a ∈ l, h a = k a) : l.flatMap h = l.flatMap k := by
  induction l with
  | nil => rfl
  | cons a t ih =>
    simp only [List.flatMap_cons, hc a (List.mem_cons_self a t)]
    rw [ih (fun b hb => hc b (List.mem_cons_of_mem _ hb))]

theorem cFileFindings_tree_invariant (p : String) (t : CTree) (ctx : CRuleCtx)
    (f : CFile) : cFileFindings (setUnreadable p t) ctx f = cFileFindings t ctx f := rfl

theorem cVerifyRedFlags_cons (a : CFile) (l : List CFile) :
    cVerifyRedFlags (a :: l) = cVerifyRedFlags [a] ++ cVerifyRedFlags l := by
  simp [cVerifyRedFlags]

theorem cVerifyRedFlags_file_shape (f : CFile) :
    allP (fun g => g.file = f.path) (cVerifyRedFlags [f]) := by
  refine allP_mono (cVerifyRedFlags_shape [f]) (fun g hg => ?_)
  rcases hg.2.2 with ⟨f', hf', he⟩
  rcases List.mem_singleton.mp hf' with rfl
  exact he

theorem cVerifyRedFlags_map_filter (p : String) (l : List CFile) :
    (cVerifyRedFlags (l.map (setUnreadableF p))).filter (fun g => g.file != p)
      = (cVerifyRedFlags l).filter (fun g => g.file != p) := by
  induction l with
  | nil => rfl
  | cons a t ih =>
    have hL := cVerifyRedFlags_cons (setUnreadableF p a) (t.map (setUnreadableF p))
    have hR := cVerifyRedFlags_cons a t
    rw [List.map_cons, hL, hR, List.filter_append, List.filter_append, ih]
    congr 1
    by_cases hp : a.path = p
    · have h1 : (cVerifyRedFlags [setUnreadableF p a]).filter (fun g => g.file != p) = [] := by
        rw [List.filter_eq_nil_iff]
        intro g hg
        have := cVerifyRedFlags_file_shape (setUnreadableF p a) g hg
        rw [setUnreadableF_path, hp] at this
        simp [this]
      have h2 : (cVerifyRedFlags [a]).filter (fun g => g.file != p) = [] := by
        rw [List.filter_eq_nil_iff]
        intro g hg
        have := cVerifyRedFlags_file_shape a g hg
        rw [hp] at this
        simp [this]
      rw [h1, h2]
    · rw [setUnreadableF_of_ne hp]

theorem cMain_isolation (t : CTree) (p : String) :
    (cMainFindings (setUnreadable p t)).filter (fun g => g.file != p)
      = (cMainFindings t).filter (fun g => g.file != p) := by
  have hmain : cMainFindings (setUnreadable p t)
      = cLayoutFindings t
        ++ ((cSourceFiles t).map (setUnreadableF p)).flatMap (cFileFindings t (cRuleCtx t))
        ++ cVerifyRedFlags ((cSourceFiles t).map (setUnreadableF p)) := by
    unfold cMainFindings
    rw [cLayoutFindings_setUnreadable, cRuleCtx_setUnreadable, cSourceFiles_setUnreadable]
    have hff : cFileFindings (setUnreadable p t) (cRuleCtx t) = cFileFindings t (cRuleCtx t) :=
      funext (fun f => rfl)
    rw [hff]
  rw [hmain]
  show _ = (cLayoutFindings t ++ (cSourceFiles t).flatMap (cFileFindings t (cRuleCtx t))
      ++ cVerifyRedFlags (cSourceFiles t)).filter (fun g => g.file != p)
  rw [List.filter_append, List.filter_append, List.filter_append, List.filter_append,
    cVerifyRedFlags_map_filter]
  congr 2
  rw [List.flatMap_map, filter_flatMap, filter_flatMap]
  apply flatMap_congr_fin
  intro f _
  by_cases hp : f.path = p
  · have h1 : (cFileFindings t (cRuleCtx t) (setUnreadableF p f)).filter
        (fun g => g.file != p) = [] := by
      rw [List.filter_eq_nil_iff]
      intro g hg
      have := (cFileFindings_shape t (cRuleCtx t) (setUnreadableF p f)) g hg
      have hf : g.file = p := by rw [this.2.1, setUnreadableF_path, hp]
      simp [hf]
    have h2 : (cFileFindings t (cRuleCtx t) f).filter (fun g => g.file != p) = [] := by
      rw [List.filter_eq_nil_iff]
      intro g hg
      have := (cFileFindings_shape t (cRuleCtx t) f) g hg
      have hf : g.file = p := by rw [this.2.1, hp]
      simp [hf]
    rw [h1, h2]
  · rw [setUnreadableF_of_ne hp]

theorem allP_condFinding_false {P : Finding → Prop} {b : Bool} {f : Finding}
    (h : b = false) : allP P (condFinding b f) := by
  intro g hg
  rcases mem_condFinding.mp hg with ⟨hb, -⟩
  rw [h] at hb
  exact absurd hb (by simp)

theorem crossCandidate_none_of_skip {own : Str} {o : OFile}
    (h : isSharedResource o = true
      ∨ ((extractFeatureName o).any (fun ofeat => lowerL ofeat == lowerL own)) = true) :
    crossCandidate own o = none := by
  unfold crossCandidate
  by_cases hs : isSharedResource o = true
  · rw [if_pos hs]
  · rw [if_neg hs]
    rcases h with h | h
    · exact absurd h hs
    · cases hx : extractFeatureName o with
      | none => rfl
      | some ofeat =>
        rw [hx] at h
        simp only [Option.any_some] at h
        simp [h]

theorem oopRun_keys_distinct (files : List OFile) :
    (oopRunFindings files).Pairwise (fun a b => keyOf a ≠ keyOf b) := by
  unfold oopRunFindings
  split
  · exact List.Pairwise.nil
  · exact dedupSeen_keys_distinct [] _

theorem oopRun_sorted (files : List OFile) :
    (oopRunFindings files).Pairwise (fun a b => keyLe a b = true) := by
  unfold oopRunFindings
  split
  · exact List.Pairwise.nil
  · exact List.Pairwise.sublist (dedupSeen_sublist [] _) (sortLe_pairwise _)

theorem oopRun_key_covered {files : List OFile} {g : Finding}
    (hg : g ∈ oopRawFindings files) (htot : oopTotalChecked files ≠ 0) :
    ∃ g' ∈ oopRunFindings files, keyOf g' = keyOf g := by
  unfold oopRunFindings
  rw [if_neg (by simpa using htot)]
  exact dedupSeen_covers (mem_sortLe.mpr hg) [] (by simp)

theorem stemL_prefix (n : Str) : ∃ r, n = stemL n ++ r := by
  unfold stemL
  cases hd : lastDotIdx n with
  | none => exact ⟨[], by simp⟩
  | some i =>
    show ∃ r, n = (if 0 < i ∧ i < n.length - 1 then n.take i else n) ++ r
    by_cases hc : 0 < i ∧ i < n.length - 1
    · rw [if_pos hc]
      exact ⟨n.drop i, by rw [List.take_append_drop]⟩
    · rw [if_neg hc]
      exact ⟨[], by simp⟩

theorem startsWithL_of_stem {p n : Str} (h : startsWithL p (stemL n) = true) :
    startsWithL p n = true := by
  obtain ⟨t, ht⟩ := startsWithL_iff.mp h
  obtain ⟨r, hr⟩ := stemL_prefix n
  rw [ht] at hr
  rw [hr, List.append_assoc]
  exact startsWithL_append _ _

/-!
## Claim theorems
-/

/-- C5: The role classifier is a total, deterministic pure function of the
filename stem (it is a Lean function); every stem beginning with the reserved
prefix `inf_` classifies as `invalid_prefix` regardless of what follows; and
matching follows the fixed precedence — reserved prefix, exact core names,
the two-segment `prefix_feature` pattern, the remaining single-segment
prefixes, else unknown, first hit wins — which is stated as extensional
equality of `get_role_info` with a classifier written clause by clause from
the spec's precedence list. -/
theorem c5_classifier_total_precedence :
    (∀ rest : Str, classifyStem (chars "inf_" ++ rest) = ("invalid_prefix", none))
    ∧ (∀ name : Str, getRoleInfo name = classifySpec (stemL (baseNameL name))) := by
  constructor
  · intro rest
    unfold classifyStem
    rw [if_pos (startsWithL_append (chars "inf_") rest)]
  · intro name
    exact classifyStem_eq_classifySpec _

/-- C2: For every scanned tree, each binding's exit status is 0 exactly when
the run produced zero error-severity findings and 2 otherwise; warnings alone
never make the exit status non-zero; and the contract has the same form for
the C-family binding and the OOP binding. -/
theorem c2_exit_status_contract (t : CTree) (files : List OFile) :
    cExitCode t = (if (cMainFindings t).countP isErrorF = 0 then 0 else 2)
    ∧ oopExitCode files = (if (oopRunFindings files).countP isErrorF = 0 then 0 else 2)
    ∧ ((∀ g ∈ cMainFindings t, g.severity ≠ "error") → cExitCode t = 0)
    ∧ ((∀ g ∈ oopRunFindings files, g.severity ≠ "error") → oopExitCode files = 0) := by
  refine ⟨exit_formula (cMainFindings t), ?_, ?_, ?_⟩
  · unfold oopExitCode
    by_cases h0 : (oopTotalChecked files == 0) = true
    · rw [if_pos h0]
      have hrun : oopRunFindings files = [] := by
        unfold oopRunFindings
        rw [if_pos h0]
      rw [hrun]
      rfl
    · rw [if_neg h0]
      exact exit_formula _
  · intro h
    exact exit_zero_of_no_error h
  · intro h
    unfold oopExitCode
    by_cases h0 : (oopTotalChecked files == 0) = true
    · rw [if_pos h0]
    · rw [if_neg h0]
      exact exit_zero_of_no_error h

/-- Witness for C2 at a concrete violation-free tree and the empty OOP file
set: both exit statuses are 0. -/
theorem c2_exit_status_contract_witness :
    cExitCode c2Tree = 0 ∧ oopExitCode [] = 0 := by
  constructor
  · exact (c2_exit_status_contract c2Tree []).2.2.1 (by decide)
  · exact (c2_exit_status_contract c2Tree []).2.2.2 (by decide)

/-- C4 (amended): In the OOP binding the final finding list has pairwise
distinct `(file, line, rule)` keys and is sorted by that key.  (The C-family
binding performs no deduplication; see the counterexample.) -/
theorem c4_dedup_sort_amended (files : List OFile) :
    (oopRunFindings files).Pairwise (fun a b => keyOf a ≠ keyOf b)
    ∧ (oopRunFindings files).Pairwise (fun a b => keyLe a b = true) :=
  ⟨oopRun_keys_distinct files, oopRun_sorted files⟩

/-- C4 (counterexample): the C-family binding does not deduplicate — a bare
root yields five findings sharing the key `("/r", 1, "layout.required")`. -/
theorem c4_no_dedup_counterexample :
    (cMainFindings c4Tree).countP (fun g => keyOf g == ("/r", 1, "layout.required")) = 5
    ∧ ¬ (cMainFindings c4Tree).Pairwise (fun a b => keyOf a ≠ keyOf b) := by
  constructor
  · decide
  · decide

/-- C10: Every finding either binding emits has severity `"error"` or
`"warning"`, and severity is determined by the rule identifier: the
warnings are exactly the red-flag heuristics (`red-flag-empty-idea`,
`red-flag-fat-poiesis`), everything else is an error. -/
theorem c10_severity_rule_invariant (t : CTree) (files : List OFile)
    (g h : Finding) (hg : g ∈ cMainFindings t) (hh : h ∈ oopRunFindings files) :
    ((g.severity = "warning" ↔ g.rule ∈ redFlagRules)
      ∧ (g.severity = "error" ∨ g.severity = "warning"))
    ∧ ((h.severity = "warning" ↔ h.rule ∈ redFlagRules)
      ∧ (h.severity = "error" ∨ h.severity = "warning")) := by
  constructor
  · rcases cMainFindings_shape t g hg with hge | hgw
    · refine ⟨⟨fun hs => absurd (hge.1.symm.trans hs) (by decide), ?_⟩, Or.inl hge.1⟩
      intro hr
      exact absurd hr (cRules_not_redFlag g.rule hge.2)
    · exact ⟨⟨fun _ => hgw.2, fun _ => hgw.1⟩, Or.inr hgw.1⟩
  · rcases oopRunFindings_shape files h hh with hhe | hhw
    · refine ⟨⟨fun hs => absurd (hhe.1.symm.trans hs) (by decide), ?_⟩, Or.inl hhe.1⟩
      intro hr
      exact absurd hr (oopRules_not_redFlag h.rule hhe.2)
    · exact ⟨⟨fun _ => hhw.2, fun _ => hhw.1⟩, Or.inr hhw.1⟩

/-- Witness for C10 at a concrete error finding of the C-family binding and a
concrete warning finding of the OOP binding. -/
theorem c10_severity_rule_invariant_witness :
    (⟨"error", "/rx", 1, "layout.required"⟩ : Finding) ∈ cMainFindings c10Tree
    ∧ (⟨"warning", "/p/ida_W.vb", 0, "red-flag-empty-idea"⟩ : Finding) ∈ oopRunFindings c10Files
    ∧ ("error" : String) = "error" := by
  refine ⟨by decide, by decide, ?_⟩
  exact (c10_severity_rule_invariant c10Tree c10Files
    ⟨"error", "/rx", 1, "layout.required"⟩
    ⟨"warning", "/p/ida_W.vb", 0, "red-flag-empty-idea"⟩
    (by decide) (by decide)).1.2.resolve_right (by decide)

/-- C1 (code bug): the nested-architecture-unit exemption promised by the
location validator is dead code.  A correctly named Idea file placed at
`/r/deps/extern/unit/project/features/demo/ida_demo.c` — i.e. inside a nested
architecture unit under `deps/extern`, exactly the layout the code's own
messages describe as permitted — is classified `idea`, lies under the
`deps/extern` directory, yet `test_contains_subpath` fails because its
needles are written with doubled backslashes (`"\\project\\features\\"`
after Python unescaping), a substring that can never occur in a normalized
path; so the binding emits a `path.project_feature` error for the file. -/
theorem c1_nested_unit_exemption_dead :
    (getRoleInfo (chars "ida_demo.c")).1 = "idea"
    ∧ underPath (chars "/r/deps/extern/unit/project/features/demo/ida_demo.c")
        (cDepsExternDir c1Tree) = true
    ∧ containsSubpath (chars "/r/deps/extern/unit/project/features/demo/ida_demo.c")
        (chars "\\\\project\\\\features\\\\") = false
    ∧ cMainFindings c1Tree =
        [⟨"error", "/r/deps/extern/unit/project/features/demo/ida_demo.c", 1,
            "path.project_feature"⟩,
         ⟨"warning", "/r/deps/extern/unit/project/features/demo/ida_demo.c", 0,
            "red-flag-empty-idea"⟩] := by
  refine ⟨by decide, by decide, by decide, by decide⟩

/-- C3 (counterexample): an Idea file that includes the Core-contract header
`cfg_core.h` through a `deps` path still receives an `include.deps_path`
error, so the Core-contract exception does not bypass *every* include rule as
the spec states — it bypasses the leaf-name rules only. -/
theorem c3_core_contract_counterexample :
    c3Inc.leaf = chars "cfg_core.h"
    ∧ cIncludeFindings c3Ctx "idea" (some (chars "demo"))
        "/r/project/features/demo/ida_demo.c" c3Inc
      = [⟨"error", "/r/project/features/demo/ida_demo.c", 5, "include.deps_path"⟩] := by
  exact ⟨by decide, by decide⟩

/-- C3 (amended): for an include whose leaf is exactly `cfg_core.h`, every
finding the include rule engine can emit carries the rule
`include.deps_path`; in particular, when the include path has no `deps`
segment, the engine emits nothing at all — the Core-contract exception is
universal for the leaf-name rules but does not extend to the deps-path
rule. -/
theorem c3_core_contract_amended (ctx : CRuleCtx) (role : String)
    (feature : Option Str) (fp : String) (inc : CInclude)
    (hleaf : inc.leaf = chars "cfg_core.h") :
    (∀ g ∈ cIncludeFindings ctx role feature fp inc, g.rule = "include.deps_path")
    ∧ (hasDepsSeg inc.path = false → cIncludeFindings ctx role feature fp inc = []) := by
  have h1 : startsWithL (chars "prx_") (chars "cfg_core.h") = false := rfl
  have h2 : startsWithL (chars "poi_") (chars "cfg_core.h") = false := rfl
  have h3 : startsWithL (chars "ida_") (chars "cfg_core.h") = false := rfl
  have h4 : startsWithL (chars "cfg_") (chars "cfg_core.h") = true := rfl
  have h5 : startsWithL (chars "db_") (chars "cfg_core.h") = false := rfl
  have h6 : startsAny ["db_", "stm_", "mdw_", "svc_", "hal_", "bsp_"]
      (chars "cfg_core.h") = false := rfl
  have h7 : startsAny ["prx_", "poi_"] (chars "cfg_core.h") = false := rfl
  have h8 : startsAny ["hal_", "bsp_"] (chars "cfg_core.h") = false := rfl
  have h9 : startsAny ["ida_", "prx_", "poi_"] (chars "cfg_core.h") = false := rfl
  have h10 : (chars "cfg_core.h" == chars "cfg_core.h") = true := rfl
  have h11 : startsWithL (chars "hal_") (chars "cfg_core.h") = false := rfl
  have h12 : startsAny ["ida_", "prx_", "poi_", "mdw_", "svc_"]
      (chars "cfg_core.h") = false := rfl
  have hcf : ∀ g : Finding, condFinding false g = [] := fun _ => rfl
  have hred : cIncludeFindings ctx role feature fp inc
      = if sysIncludeRaw inc.raw then []
        else condFinding (coreProjectRoles.contains role && hasDepsSeg inc.path)
          ⟨"error", fp, inc.line, "include.deps_path"⟩ := by
    simp only [cIncludeFindings, hleaf, h1, h2, h3, h4, h5, h6, h7, h8, h9, h10, h11, h12,
      Bool.not_true, Bool.and_false, Bool.false_and, Bool.true_and, Bool.or_false, hcf,
      List.append_nil, List.nil_append, ite_self]
  constructor
  · intro g hg
    rw [hred] at hg
    by_cases hsys : sysIncludeRaw inc.raw = true
    · rw [if_pos hsys] at hg
      exact absurd hg (List.not_mem_nil g)
    · rw [if_neg hsys] at hg
      rcases mem_condFinding.mp hg with ⟨_, hgf⟩
      rw [hgf]
  · intro hdeps
    rw [hred, hdeps]
    simp only [Bool.and_false, hcf, ite_self]

/-- Witness for C3's amended theorem: a plain same-directory include of
`cfg_core.h` from an Idea file produces no findings. -/
theorem c3_core_contract_amended_witness :
    c3PlainInc.leaf = chars "cfg_core.h"
    ∧ hasDepsSeg c3PlainInc.path = false
    ∧ cIncludeFindings c3Ctx "idea" (some (chars "demo"))
        "/r/project/features/demo/ida_demo.c" c3PlainInc = [] := by
  refine ⟨by decide, by decide, ?_⟩
  exact (c3_core_contract_amended c3Ctx "idea" (some (chars "demo"))
    "/r/project/features/demo/ida_demo.c" c3PlainInc (by decide)).2 (by decide)

/-- C6: layering — a Poiesis-role translation unit that includes an
Idea-role header (any leaf classified `idea`, which necessarily bears the
`ida_` prefix) is flagged with a `poi.include` error, with no same-feature
escape hatch for that pairing; under the stated side conditions (not a
system include, no `deps` path segment) this error is the only finding the
include rule engine emits for the reference. -/
theorem c6_poiesis_to_idea_flagged (ctx : CRuleCtx) (feature : Option Str)
    (fp : String) (inc : CInclude)
    (hrole : (getRoleInfo inc.leaf).1 = "idea")
    (hbase : baseNameL inc.leaf = inc.leaf)
    (hsys : sysIncludeRaw inc.raw = false)
    (hdeps : hasDepsSeg inc.path = false) :
    cIncludeFindings ctx "poiesis" feature fp inc
      = [⟨"error", fp, inc.line, "poi.include"⟩] := by
  have hstem : startsWithL (chars "ida_") (stemL (baseNameL inc.leaf)) = true :=
    classifyStem_idea_startsWith hrole
  rw [hbase] at hstem
  have hida : startsWithL (chars "ida_") inc.leaf = true := startsWithL_of_stem hstem
  have hida2 : startsWithL ('i' :: chars "da_") inc.leaf = true := hida
  have hprx : startsWithL (chars "prx_") inc.leaf = false :=
    startsWithL_disj (by decide) hida2
  have hpoi : startsWithL (chars "poi_") inc.leaf = false :=
    startsWithL_disj (by decide) hida2
  have hcfg : startsWithL (chars "cfg_") inc.leaf = false :=
    startsWithL_disj (by decide) hida2
  have hdb : startsWithL (chars "db_") inc.leaf = false :=
    startsWithL_disj (by decide) hida2
  have hr1 : (("poiesis" : String) == "core_idea") = false := rfl
  have hr2 : (("poiesis" : String) == "idea") = false := rfl
  have hr3 : (("poiesis" : String) == "core_poiesis") = false := rfl
  have hr4 : (("poiesis" : String) == "core_praxis") = false := rfl
  have hr5 : (("poiesis" : String) == "praxis") = false := rfl
  have hr6 : (("poiesis" : String) == "poiesis") = true := rfl
  have hr7 : (("poiesis" : String) == "feature_cfg") = false := rfl
  have hr8 : (("poiesis" : String) == "feature_db") = false := rfl
  have hr9 : (("poiesis" : String) == "datastream") = false := rfl
  have hr10 : (("poiesis" : String) == "service") = false := rfl
  have hr11 : (("poiesis" : String) == "middleware") = false := rfl
  have hr12 : (("poiesis" : String) == "hal") = false := rfl
  have hr13 : (("poiesis" : String) == "bsp") = false := rfl
  have hcore : coreProjectRoles.contains "poiesis" = true := rfl
  have hcf : ∀ g : Finding, condFinding false g = [] := fun _ => rfl
  have hct : ∀ g : Finding, condFinding true g = [g] := fun _ => rfl
  simp only [cIncludeFindings, hsys, hida, hprx, hpoi, hcfg, hdb, hdeps,
    hr1, hr2, hr3, hr4, hr5, hr6, hr7, hr8, hr9, hr10, hr11, hr12, hr13, hcore,
    Bool.false_eq_true, if_false, Bool.and_false, Bool.false_and, Bool.true_and,
    Bool.or_self, Bool.false_or, hcf, hct, List.append_nil, List.nil_append,
    if_true, ite_self]

/-- Witness for C6: the concrete include `#include "ida_demo.h"` from a
Poiesis file is flagged `poi.include`. -/
theorem c6_poiesis_to_idea_flagged_witness :
    cIncludeFindings ⟨[], [], []⟩ "poiesis" (some (chars "demo"))
        "/r/project/features/demo/poi_demo.c" c6Inc
      = [⟨"error", "/r/project/features/demo/poi_demo.c", 7, "poi.include"⟩] :=
  c6_poiesis_to_idea_flagged ⟨[], [], []⟩ (some (chars "demo"))
    "/r/project/features/demo/poi_demo.c" c6Inc
    (by decide) (by decide) (by decide) (by decide)

/-- C7: cross-feature isolation — the cross-feature reference scan skips
shared-resource files entirely (they produce no cross-feature findings), and
for a feature file the scanned name list is insensitive to shared-resource
files and to files of the scanning file's own feature (case-insensitive):
the scan over all files equals the scan over only the genuinely foreign
feature files. -/
theorem c7_cross_feature_isolation (f : OFile) (files : List OFile) :
    (isSharedResource f = true → oopCrossFeature f files = [])
    ∧ (∀ own : Str, extractFeatureName f = some own →
        oopCrossFeature f files
          = oopCrossFeature f (files.filter (fun o =>
              !isSharedResource o
              && !((extractFeatureName o).any
                    (fun ofeat => lowerL ofeat == lowerL own))))) := by
  constructor
  · intro hs
    unfold oopCrossFeature
    rw [if_pos hs]
  · intro own hx
    by_cases hs : isSharedResource f = true
    · unfold oopCrossFeature
      rw [if_pos hs, if_pos hs]
    · have hnames : files.filterMap (crossCandidate own)
          = (files.filter (fun o =>
              !isSharedResource o
              && !((extractFeatureName o).any
                    (fun ofeat => lowerL ofeat == lowerL own)))).filterMap
              (crossCandidate own) := by
        apply filterMap_filter_of_none
        intro o ho hk
        apply crossCandidate_none_of_skip
        cases hso : isSharedResource o with
        | true => exact Or.inl rfl
        | false =>
          cases hb : (extractFeatureName o).any
              (fun ofeat => lowerL ofeat == lowerL own) with
          | true => exact Or.inr rfl
          | false =>
            rw [hso, hb] at hk
            exact absurd hk (by decide)
      unfold oopCrossFeature
      rw [if_neg hs, if_neg hs]
      simp only [hx]
      rw [hnames]

/-- Witness for C7: a shared-resource file yields no cross-feature findings,
and filtering away shared and same-feature files does not change the scan of
a feature file. -/
theorem c7_cross_feature_isolation_witness :
    oopCrossFeature c7Shared c7Files = []
    ∧ oopCrossFeature c7IdaAlpha c7Files
        = oopCrossFeature c7IdaAlpha (c7Files.filter (fun o =>
            !isSharedResource o
            && !((extractFeatureName o).any
                  (fun ofeat => lowerL ofeat == lowerL (chars "Alpha"))))) := by
  constructor
  · exact (c7_cross_feature_isolation c7Shared c7Files).1 (by decide)
  · exact (c7_cross_feature_isolation c7IdaAlpha c7Files).2 (chars "Alpha") (by decide)

/-- C8 (counterexample): the spec says every unreadable file surfaces as an
error finding, but a run whose only layer file is an unreadable `poi_` file
produces no findings at all and exits 0 — the reverse-dependency stage
returns before reading when its forbidden-name list is empty, the
cross-feature stage returns before reading when its name list is empty, and
the red-flag stage swallows read failures silently. -/
theorem c8_read_failure_counterexample :
    c8PoiFile.readable = false
    ∧ oopTotalChecked [c8PoiFile] = 1
    ∧ oopRunFindings [c8PoiFile] = []
    ∧ oopExitCode [c8PoiFile] = 0 := by
  refine ⟨by decide, by decide, by decide, by decide⟩

/-- C8 (amended): read failures surface only when an error-checking stage
actually attempts the read.  In the C-family binding every classified source
file is read (a `read` error always reaches the main finding list); in the
OOP binding an unreadable Idea file always yields a `file-read-error` that
survives to the final list; and in both bindings a per-file read failure
never aborts the run — the findings for all other files are unaffected. -/
theorem c8_read_failure_amended (t : CTree) (f : CFile) (files : List OFile) (o : OFile)
    (hf : f ∈ cSourceFiles t)
    (hfr : f.readable = false)
    (hr1 : ((getRoleInfo (cName f)).1 == "invalid_prefix") = false)
    (hr2 : ((getRoleInfo (cName f)).1 == "unknown") = false)
    (ho : o ∈ files)
    (hor : o.readable = false)
    (hoi : oGetRole (oName o) = some "idea") :
    (⟨"error", f.path, 1, "read"⟩ : Finding) ∈ cMainFindings t
    ∧ oopVerifyIdea o = [⟨"error", o.path, 0, "file-read-error"⟩]
    ∧ (∃ g ∈ oopRunFindings files,
        g.severity = "error" ∧ g.file = o.path ∧ g.line = 0 ∧ g.rule = "file-read-error")
    ∧ (∀ (t2 : CTree) (p : String),
        (cMainFindings (setUnreadable p t2)).filter (fun g => g.file != p)
          = (cMainFindings t2).filter (fun g => g.file != p)) := by
  have hinc : cGetIncludes f = Except.error () := by
    simp [cGetIncludes, hfr]
  have hff : cFileFindings t (cRuleCtx t) f
      = cLocFindings t f (getRoleInfo (cName f)).1 ++ [⟨"error", f.path, 1, "read"⟩] := by
    simp only [cFileFindings, hr1, hr2, hinc, Bool.false_eq_true, if_false]
  have hidea : oopVerifyIdea o = [⟨"error", o.path, 0, "file-read-error"⟩] := by
    simp [oopVerifyIdea, hor]
  refine ⟨?_, hidea, ?_, fun t2 p => cMain_isolation t2 p⟩
  · unfold cMainFindings
    apply List.mem_append_left
    apply List.mem_append_right
    apply List.mem_flatMap.mpr
    refine ⟨f, hf, ?_⟩
    rw [hff]
    exact List.mem_append_right _ (List.mem_singleton.mpr rfl)
  · have hmemIda : o ∈ oopIdaFiles files :=
      List.mem_filter.mpr ⟨ho, by simp [hoi]⟩
    have hraw : (⟨"error", o.path, 0, "file-read-error"⟩ : Finding) ∈ oopRawFindings files := by
      unfold oopRawFindings
      apply List.mem_append_left
      apply List.mem_append_left
      apply List.mem_append_left
      apply List.mem_append_left
      apply List.mem_flatMap.mpr
      refine ⟨o, hmemIda, ?_⟩
      rw [hidea]
      exact List.mem_singleton.mpr rfl
    have htot : oopTotalChecked files ≠ 0 := by
      have hpos : 0 < (oopIdaFiles files).length := List.length_pos_of_mem hmemIda
      unfold oopTotalChecked
      omega
    obtain ⟨g, hg, hkey⟩ := oopRun_key_covered hraw htot
    have hkey2 : (g.file, g.line, g.rule) = (o.path, 0, ("file-read-error" : String)) := hkey
    have hfile : g.file = o.path := congrArg Prod.fst hkey2
    have hline : g.line = 0 := congrArg (fun x => x.2.1) hkey2
    have hrule : g.rule = "file-read-error" := congrArg (fun x => x.2.2) hkey2
    refine ⟨g, hg, ?_, hfile, hline, hrule⟩
    rcases oopRunFindings_shape files g hg with ⟨hsev, _⟩ | ⟨_, hrf⟩
    · exact hsev
    · rw [hrule] at hrf
      exact absurd hrf (by decide)

/-- Witness for C8's amended theorem at an unreadable Idea `.c` file in a
complete tree and an unreadable Idea `.vb` file. -/
theorem c8_read_failure_amended_witness :
    (⟨"error", "/r8/project/features/demo/ida_demo.c", 1, "read"⟩ : Finding)
        ∈ cMainFindings c8Tree
    ∧ oopVerifyIdea c8OFile = [⟨"error", "/p/ida_X.vb", 0, "file-read-error"⟩] := by
  have h := c8_read_failure_amended c8Tree
    ⟨"/r8/project/features/demo/ida_demo.c", ["int f(void);"], false⟩
    [c8OFile] c8OFile
    (by decide) (by decide) (by decide) (by decide)
    (by decide) (by decide) (by decide)
  exact ⟨h.1, h.2.1⟩

/-- C9 (counterexample): in the C-family binding only `.c` files reach the
empty-idea heuristic — an Idea-role *header* with fewer than 10 code lines
yields no `red-flag-empty-idea` finding, contradicting the spec's "every
Idea-role file". -/
theorem c9_header_escapes_counterexample :
    (getRoleInfo (cName c9HeaderFile)).1 = "idea"
    ∧ cCountLines c9HeaderFile < 10
    ∧ cVerifyRedFlags [c9HeaderFile] = [] :=
  ⟨by decide, by decide, by decide⟩

/-- C9 (amended): an Idea-role `.c` file with fewer than 10 counted code
lines yields exactly one `red-flag-empty-idea` warning in the C-family
binding, which reaches the main finding list; an Idea-role OOP file with
fewer than 10 counted lines contributes exactly one finding with key
`(path, 0, red-flag-empty-idea)` to the final OOP list; warnings alone keep
the exit status 0; and the line counter strips whole multi-line block
comments. -/
theorem c9_empty_idea_amended (t : CTree) (f : CFile) (files : List OFile) (o : OFile)
    (hf : f ∈ cSourceFiles t)
    (hsuf : lowerL (suffixL (cName f)) = chars ".c")
    (hrole : (getRoleInfo (cName f)).1 = "idea")
    (hcnt : cCountLines f < 10)
    (ho : o ∈ files)
    (hoi : oGetRole (oName o) = some "idea")
    (hocnt : oCountLines o < 10) :
    cVerifyRedFlags [f] = [⟨"warning", f.path, 0, "red-flag-empty-idea"⟩]
    ∧ (⟨"warning", f.path, 0, "red-flag-empty-idea"⟩ : Finding) ∈ cMainFindings t
    ∧ (oopRunFindings files).countP
        (fun g => keyOf g == (o.path, 0, "red-flag-empty-idea")) = 1
    ∧ ((∀ g ∈ cMainFindings t, g.severity ≠ "error") → cExitCode t = 0)
    ∧ (∀ (mid rest : List String),
        (∀ l ∈ mid, isInfixL (chars "*/") (stripL l.data) = false) →
        cCountAux false ("/*" :: mid ++ "*/" :: rest) = cCountAux false rest) := by
  have hq : (lowerL (suffixL (cName f)) != chars ".c") = false := by
    rw [hsuf]; rfl
  have hri : ((getRoleInfo (cName f)).1 == "idea") = true := by rw [hrole]; rfl
  have hrp : ((getRoleInfo (cName f)).1 == "poiesis") = false := by rw [hrole]; rfl
  have hd : decide (cCountLines f < 10) = true := decide_eq_true hcnt
  have hcf : ∀ g : Finding, condFinding false g = [] := fun _ => rfl
  have hct : ∀ g : Finding, condFinding true g = [g] := fun _ => rfl
  have hone : cVerifyRedFlags [f] = [⟨"warning", f.path, 0, "red-flag-empty-idea"⟩] := by
    simp only [cVerifyRedFlags, List.flatMap_cons, List.flatMap_nil, hq,
      Bool.false_eq_true, if_false, hri, hd, Bool.true_and, hrp, Bool.false_and,
      hct, hcf, List.append_nil]
  refine ⟨hone, ?_, ?_, fun h => exit_zero_of_no_error h,
    fun mid rest hm => cCountAux_block mid rest hm⟩
  · unfold cMainFindings
    apply List.mem_append_right
    unfold cVerifyRedFlags
    apply List.mem_flatMap.mpr
    refine ⟨f, hf, ?_⟩
    simp only [hq, Bool.false_eq_true, if_false, hri, hd, Bool.true_and, hrp,
      Bool.false_and, hct, hcf, List.append_nil]
    exact List.mem_singleton.mpr rfl
  · have hmemIda : o ∈ oopIdaFiles files :=
      List.mem_filter.mpr ⟨ho, by simp [hoi]⟩
    have hod : decide (oCountLines o < 10) = true := decide_eq_true hocnt
    have hraw : (⟨"warning", o.path, 0, "red-flag-empty-idea"⟩ : Finding)
        ∈ oopRawFindings files := by
      unfold oopRawFindings
      apply List.mem_append_right
      unfold oopRedFlags
      apply List.mem_append_left
      apply List.mem_flatMap.mpr
      exact ⟨o, hmemIda, mem_condFinding.mpr ⟨hod, rfl⟩⟩
    have htot : oopTotalChecked files ≠ 0 := by
      have hpos : 0 < (oopIdaFiles files).length := List.length_pos_of_mem hmemIda
      unfold oopTotalChecked
      omega
    obtain ⟨g, hg, hkey⟩ := oopRun_key_covered hraw htot
    have hge : 1 ≤ (oopRunFindings files).countP
        (fun x => keyOf x == (o.path, 0, "red-flag-empty-idea")) :=
      countP_pos_of_mem hg hkey
    have hle : (oopRunFindings files).countP
        (fun x => keyOf x == (o.path, 0, "red-flag-empty-idea")) ≤ 1 :=
      countP_key_le_one (oopRun_keys_distinct files)
    omega

/-- Witness for C9's amended theorem at a tree with one tiny Idea `.c` file
and a one-line Idea `.vb` file. -/
theorem c9_empty_idea_amended_witness :
    cVerifyRedFlags [⟨"/r9/project/features/demo/ida_demo.c",
        ["int f(void) { return 1; }"], true⟩]
      = [⟨"warning", "/r9/project/features/demo/ida_demo.c", 0, "red-flag-empty-idea"⟩]
    ∧ (oopRunFindings [c9OFile]).countP
        (fun g => keyOf g == ("/p/ida_Tiny.vb", 0, "red-flag-empty-idea")) = 1 := by
  have h := c9_empty_idea_amended c9Tree
    ⟨"/r9/project/features/demo/ida_demo.c", ["int f(void) { return 1; }"], true⟩
    [c9OFile] c9OFile
    (by decide) (by decide) (by decide) (by decide) (by decide) (by decide) (by decide)
  exact ⟨h.1, h.2.2.1⟩
